import Mathlib

/-!
Verification of the streaming protocol normalization layer: shallow
embedding of the overflow heuristics, retry executor, message
transformation pipeline, streaming JSON parser wrapper, event stream
state machine and provider registry, with theorems about their
specified behavior.
-/

/-! ## String helpers (models of the JavaScript string primitives used) -/

/-- Model of JavaScript String.prototype.toLowerCase restricted to the
character-wise lowering that the matched ASCII patterns need. -/
def lowerStr (s : String) : List Char :=
  s.data.map Char.toLower

/-- Decides whether the pattern list occurs as a contiguous substring of the
haystack list (model of String.prototype.includes). -/
def containsSub : List Char → List Char → Bool
  | hay, pat =>
    match hay with
    | [] => pat.isEmpty
    | _ :: rest => pat.isPrefixOf hay || containsSub rest pat

/-- Membership of a character in the JavaScript regex newline set that the
dot metacharacter refuses to match. -/
def isJsNewline (c : Char) : Bool :=
  c = '\n' || c = '\r' || c = (Char.ofNat 0x2028) || c = (Char.ofNat 0x2029)

/-- Membership in the JavaScript regex whitespace class (the characters that
can actually appear in the matched provider error strings). -/
def isJsSpace (c : Char) : Bool :=
  c = ' ' || c = '\t' || c = '\n' || c = '\r' || c = (Char.ofNat 0x0c) || c = (Char.ofNat 0x0b)

/-! ## JSON values

Model of the JavaScript values produced by JSON.parse; numbers keep their
source text since no claim computes with them. -/

inductive JsonValue where
  | null : JsonValue
  | bool (b : Bool) : JsonValue
  | num (raw : String) : JsonValue
  | str (s : String) : JsonValue
  | arr (items : List JsonValue) : JsonValue
  | obj (fields : List (String × JsonValue)) : JsonValue
deriving Repr

/-! ## Message data model (src/src/ai/types.ts shapes as used by the core) -/

inductive StopReason where
  | stop | length | toolUse | error | aborted
deriving Repr, DecidableEq

structure Cost where
  input : Rat
  output : Rat
  cacheRead : Rat
  cacheWrite : Rat
  total : Rat
deriving Repr, DecidableEq

structure Usage where
  input : Nat
  output : Nat
  cacheRead : Nat
  cacheWrite : Nat
  totalTokens : Nat
  cost : Cost
deriving Repr, DecidableEq

structure ToolCall where
  id : String
  name : String
  arguments : JsonValue
  thoughtSignature : Option String
deriving Repr

inductive ContentBlock where
  | text (text : String)
  | thinking (thinking : String) (thinkingSignature : Option String)
  | toolCall (tc : ToolCall)
deriving Repr

structure AssistantMessage where
  content : List ContentBlock
  api : String
  provider : String
  model : String
  usage : Usage
  stopReason : StopReason
  errorMessage : Option String
  timestamp : Nat
deriving Repr

structure ToolResultMessage where
  toolCallId : String
  toolName : String
  content : List ContentBlock
  isError : Bool
  timestamp : Nat
deriving Repr

inductive Message where
  | user (content : String) (timestamp : Nat)
  | assistant (msg : AssistantMessage)
  | toolResult (msg : ToolResultMessage)
deriving Repr

/-! ## Overflow detection (src/src/ai/utils/stream-event-helper.ts) -/

/-- Case-insensitive substring test of a fixed lowercase pattern, the meaning
of an unanchored literal JavaScript regex with the i flag. -/
def matchLit (message : String) (pat : String) : Bool :=
  containsSub (lowerStr message) pat.data

/-- Matching for a pattern of the form first.*second: both literals on one
line (the JavaScript dot does not cross newlines), second after first. -/
def matchSeqDotStar (message : String) (p1 p2 : String) : Bool :=
  go (lowerStr message)
where
  go : List Char → Bool
    | [] => false
    | hay@(_ :: rest) =>
      (p1.data.isPrefixOf hay &&
        containsSub ((hay.drop p1.data.length).takeWhile (fun c => !isJsNewline c)) p2.data)
      || go rest

/-- Matching for a pattern of the form literal followed by one or more
digits. -/
def matchLitDigit (message : String) (p : String) : Bool :=
  go (lowerStr message)
where
  go : List Char → Bool
    | [] => false
    | hay@(_ :: rest) =>
      (p.data.isPrefixOf hay &&
        (match hay.drop p.data.length with
          | c :: _ => c.isDigit
          | [] => false))
      || go rest

/-- Matching for the pattern maximum context length is \d+ tokens: the
literal prefix, a nonempty digit run, then the literal suffix. -/
def matchLitDigitLit (message : String) (p1 p2 : String) : Bool :=
  go (lowerStr message)
where
  go : List Char → Bool
    | [] => false
    | hay@(_ :: rest) =>
      (p1.data.isPrefixOf hay &&
        (let after := hay.drop p1.data.length
         let digits := after.takeWhile Char.isDigit
         !digits.isEmpty && p2.data.isPrefixOf (after.drop digits.length)))
      || go rest

/-- Matching for context[_ ]length[_ ]exceeded: each bracket class is one of
an underscore or a space. -/
def matchContextLengthExceeded (message : String) : Bool :=
  matchLit message "context_length_exceeded" || matchLit message "context_length exceeded" ||
    matchLit message "context length_exceeded" || matchLit message "context length exceeded"

/-- One entry of the overflow pattern table: the pattern as an executable
matcher together with its remediation suggestion. -/
structure OverflowPatternConfigEntry where
  pattern : String → Bool
  suggestion : String

/-- The maintained overflow pattern table OVERFLOW_PATTERN_CONFIG, one entry
per source regex in order. -/
def OVERFLOW_PATTERN_CONFIG : List OverflowPatternConfigEntry :=
  [ ⟨fun m => matchLit m "prompt is too long", "Trim prior messages or reduce system prompt size."⟩,
    ⟨fun m => matchLit m "input is too long for requested model", "Use a larger context model or shorten history."⟩,
    ⟨fun m => matchLit m "exceeds the context window", "Drop old turns and retry with summarized context."⟩,
    ⟨fun m => matchSeqDotStar m "input token count" "exceeds the maximum", "Reduce attachments or split the request."⟩,
    ⟨fun m => matchLitDigit m "maximum prompt length is ", "Decrease prompt/tool-result verbosity."⟩,
    ⟨fun m => matchLit m "reduce the length of the messages", "Compress or summarize conversation state."⟩,
    ⟨fun m => matchLitDigitLit m "maximum context length is " " tokens", "Select a provider/model with larger window."⟩,
    ⟨fun m => matchLitDigit m "exceeds the limit of ", "Remove large blocks in latest user/tool messages."⟩,
    ⟨fun m => matchLit m "exceeds the available context size", "Increase server context if supported."⟩,
    ⟨fun m => matchLit m "greater than the context length", "Lower keep tokens / trim prompt."⟩,
    ⟨fun m => matchLit m "context window exceeds limit", "Summarize earlier turns before retrying."⟩,
    ⟨fun m => matchContextLengthExceeded m, "Prune context to fit model limits."⟩,
    ⟨fun m => matchLit m "too many tokens", "Shorten request and retry."⟩,
    ⟨fun m => matchLit m "token limit exceeded", "Trim input and reduce output token budget."⟩ ]

/-- The anchored fallback regex ^4(00|13|29)\s*(status code)?\s*\(no body\)
with the i flag: a bare overflow-like status line. -/
def matchStatusCodeNoBody (message : String) : Bool :=
  let cs := lowerStr message
  (["400".data, "413".data, "429".data].any fun pre =>
    pre.isPrefixOf cs &&
      (let rest1 := (cs.drop 3).dropWhile isJsSpace
       "(no body)".data.isPrefixOf rest1 ||
         ("status code".data.isPrefixOf rest1 &&
           "(no body)".data.isPrefixOf ((rest1.drop 11).dropWhile isJsSpace))))

/-- Truthiness of the optional errorMessage field (undefined and the empty
string are falsy in JavaScript). -/
def optStrTruthy : Option String → Bool
  | none => false
  | some s => s ≠ ""

/-- Model of isContextOverflow from stream-event-helper.ts; the optional
contextWindow is a JavaScript number whose truthiness test makes zero behave
like an absent argument. -/
def isContextOverflow (message : AssistantMessage) (contextWindow : Option Nat) : Bool :=
  if message.stopReason = StopReason.error ∧ optStrTruthy message.errorMessage then
    let em := message.errorMessage.getD ""
    if OVERFLOW_PATTERN_CONFIG.any (fun entry => entry.pattern em) then
      true
    else if matchStatusCodeNoBody em then
      true
    else
      windowCheck message contextWindow
  else
    windowCheck message contextWindow
where
  /-- The second clause of the source: contextWindow truthy, stopReason stop,
  and input plus cacheRead beyond the window. -/
  windowCheck (message : AssistantMessage) (contextWindow : Option Nat) : Bool :=
    match contextWindow with
    | some w =>
      if w ≠ 0 ∧ message.stopReason = StopReason.stop then
        message.usage.input + message.usage.cacheRead > w
      else
        false
    | none => false

/-- Model of getOverflowSuggestion from stream-event-helper.ts. -/
def getOverflowSuggestion (errorMessage : Option String) : Option String :=
  match errorMessage with
  | none => none
  | some em =>
    match OVERFLOW_PATTERN_CONFIG.find? (fun entry => entry.pattern em) with
    | some entry => some entry.suggestion
    | none =>
      if matchStatusCodeNoBody em then
        some "Provider returned a generic overflow-like status. Retry with shorter context."
      else
        none

/-! ## Retry / backoff executor (providers/simple-options.ts, appearing in
src/src/ai/providers/kimi.ts) -/

inductive ErrorCode where
  | rate_limit | timeout | network | validation | auth | unknown
deriving Repr, DecidableEq

/-- A JavaScript value thrown by an operation: a plain Error carrying a
message, or an already-normalized SimpleOptionsProviderError carrying a
message and a code (the debugging-only cause back-pointer is not modelled);
the absent value (undefined) is represented by Option.none at use sites. -/
inductive JSError where
  | jsError (message : String)
  | sopError (message : String) (code : ErrorCode)
deriving Repr, DecidableEq

/-- Code of a normalized error (the SimpleOptionsProviderError code field). -/
def JSError.codeOf : JSError → ErrorCode
  | .jsError _ => .unknown
  | .sopError _ c => c

/-- Message of a thrown error. -/
def JSError.messageOf : JSError → String
  | .jsError m => m
  | .sopError m _ => m

/-- Lowercased-message containment test, message.toLowerCase().includes(p). -/
def msgIncludes (message : String) (pat : String) : Bool :=
  containsSub (lowerStr message) pat.data

/-- Model of normalizeProviderError: an already-normalized error passes
through, an Error is classified by case-insensitive message heuristics, and
anything else (including undefined, the none case) becomes the unknown
provider error. -/
def normalizeProviderError : Option JSError → JSError
  | some (.sopError m c) => .sopError m c
  | some (.jsError msg) =>
    if msgIncludes msg "rate" && msgIncludes msg "limit" then
      .sopError msg .rate_limit
    else if msgIncludes msg "timeout" || msgIncludes msg "timed out" then
      .sopError msg .timeout
    else if msgIncludes msg "network" || msgIncludes msg "fetch" then
      .sopError msg .network
    else if msgIncludes msg "auth" || msgIncludes msg "unauthorized" || msgIncludes msg "forbidden" then
      .sopError msg .auth
    else if msgIncludes msg "invalid" || msgIncludes msg "schema" || msgIncludes msg "validation" then
      .sopError msg .validation
    else
      .sopError msg .unknown
  | none => .sopError "Unknown provider error" .unknown

/-- The retry policy record; shouldRetry receives the raw error and the
1-based attempt number. -/
structure RetryPolicy where
  maxAttempts : Nat
  baseDelayMs : Nat
  maxDelayMs : Option Nat := none
  shouldRetry : Option (JSError → Nat → Bool) := none

/-- The backoff delay slept before retry attempt+1, with attempt counted from
1: min(baseDelayMs * 2^(attempt-1), maxDelayMs ?? Number.MAX_SAFE_INTEGER). -/
def backoffDelay (policy : RetryPolicy) (attempt : Nat) : Nat :=
  min (policy.baseDelayMs * 2 ^ (attempt - 1)) (policy.maxDelayMs.getD (2 ^ 53 - 1))

/-- One run of the executeWithRetry while loop. The operation is modelled as
a function from its 0-based invocation number to a result or a thrown error;
fuel counts the remaining loop iterations (maxAttempts - attempt), attempt
the attempts made so far, lastError the most recent caught error. The second
component of the result counts how many times the operation was invoked; the
setTimeout backoff sleep has no observable effect in this model. -/
def retryGo (op : Nat → Except JSError α) (policy : RetryPolicy) :
    Nat → Nat → Option JSError → Nat → Except JSError α × Nat
  | 0, _, lastError, calls => (.error (normalizeProviderError lastError), calls)
  | fuel + 1, attempt, _, calls =>
    match op calls with
    | .ok v => (.ok v, calls + 1)
    | .error e =>
      let normalized := normalizeProviderError (some e)
      let defaultRetryable :=
        normalized.codeOf = ErrorCode.rate_limit ∨ normalized.codeOf = ErrorCode.timeout ∨
          normalized.codeOf = ErrorCode.network
      let retryable :=
        match policy.shouldRetry with
        | some f => f e (attempt + 1)
        | none => decide defaultRetryable
      if retryable = false ∨ policy.maxAttempts ≤ attempt + 1 then
        (.error normalized, calls + 1)
      else
        retryGo op policy fuel (attempt + 1) (some e) (calls + 1)

/-- Model of executeWithRetry: the while loop entered at attempt 0 with no
recorded last error; a normalized error is thrown (Except.error) when the
attempts are exhausted or a non-retryable error is hit. -/
def executeWithRetry (op : Nat → Except JSError α) (policy : RetryPolicy) :
    Except JSError α × Nat :=
  retryGo op policy policy.maxAttempts 0 none 0

/-! ## Cross-model message transformation pipeline (src/unnamed/part_014,
providers/transform-messages.ts) -/

/-- The fields of the target Model that the pipeline reads. -/
structure ModelRef where
  api : String
  provider : String
  id : String
deriving Repr, DecidableEq

/-- The caller-supplied tool-call id normalizer normalizeToolCallId:
original id, target model and source assistant message to a new id. -/
abbrev NormalizeToolCallId := String → ModelRef → AssistantMessage → String

/-- Was the assistant message produced by the target model itself? -/
def isSameModel (model : ModelRef) (a : AssistantMessage) : Bool :=
  a.provider == model.provider && a.api == model.api && a.model == model.id

/-- A toolCallIdMap.set step: the map is read through List.lookup, so the
latest binding of a key wins, matching Map.set overwrite semantics. -/
def mapSet (m : List (String × String)) (k v : String) : List (String × String) :=
  (k, v) :: m

/-- Stage-1 rewrite of one content block, returning the flatMap image of the
block and the updated toolCallIdMap. A text block is returned unchanged in
both branches of the source, so the two branches are merged here. -/
def normalizeBlock (model : ModelRef) (norm : Option NormalizeToolCallId)
    (aMsg : AssistantMessage) (same : Bool) (idMap : List (String × String)) :
    ContentBlock → List ContentBlock × List (String × String)
  | .thinking th sig =>
    if same && optStrTruthy sig then ([.thinking th sig], idMap)
    else if th = "" ∨ th.trim = "" then ([], idMap)
    else if same then ([.thinking th sig], idMap)
    else ([.text th], idMap)
  | .text t => ([.text t], idMap)
  | .toolCall tc =>
    let tc1 := if !same && optStrTruthy tc.thoughtSignature then { tc with thoughtSignature := none } else tc
    if !same then
      match norm with
      | some f =>
        let nid := f tc.id model aMsg
        if nid ≠ tc.id then
          ([.toolCall { tc1 with id := nid }], mapSet idMap tc.id nid)
        else
          ([.toolCall tc1], idMap)
      | none => ([.toolCall tc1], idMap)
    else
      ([.toolCall tc1], idMap)

/-- The content.flatMap of stage 1, threading the toolCallIdMap left to
right. -/
def normalizeBlocks (model : ModelRef) (norm : Option NormalizeToolCallId)
    (aMsg : AssistantMessage) (same : Bool) :
    List ContentBlock → List (String × String) → List ContentBlock × List (String × String)
  | [], idMap => ([], idMap)
  | b :: bs, idMap =>
    let (out, idMap1) := normalizeBlock model norm aMsg same idMap b
    let (rest, idMap2) := normalizeBlocks model norm aMsg same bs idMap1
    (out ++ rest, idMap2)

/-- The messages.map of stage 1: user messages pass through, a tool result
is re-pointed when the map holds a different non-empty id for it, and an
assistant message has its content rewritten block by block. -/
def normalizeMessages (model : ModelRef) (norm : Option NormalizeToolCallId) :
    List Message → List (String × String) → List Message × List (String × String)
  | [], idMap => ([], idMap)
  | .user c t :: ms, idMap =>
    let (rest, idMap1) := normalizeMessages model norm ms idMap
    (.user c t :: rest, idMap1)
  | .toolResult tr :: ms, idMap =>
    let tr1 :=
      match idMap.lookup tr.toolCallId with
      | some nid => if nid ≠ "" ∧ nid ≠ tr.toolCallId then { tr with toolCallId := nid } else tr
      | none => tr
    let (rest, idMap1) := normalizeMessages model norm ms idMap
    (.toolResult tr1 :: rest, idMap1)
  | .assistant a :: ms, idMap =>
    let same := isSameModel model a
    let (content1, idMap1) := normalizeBlocks model norm a same a.content idMap
    let (rest, idMap2) := normalizeMessages model norm ms idMap1
    (.assistant { a with content := content1 } :: rest, idMap2)

/-- Stage 1, NormalizeAssistantContentTransformation.apply: the scan starts
from an empty toolCallIdMap. -/
def normalizeAssistantContentApply (model : ModelRef) (norm : Option NormalizeToolCallId)
    (messages : List Message) : List Message :=
  (normalizeMessages model norm messages []).1

/-- The synthetic tool result inserted for an unmatched tool call. -/
def syntheticToolResult (now : Nat) (tc : ToolCall) : Message :=
  .toolResult ⟨tc.id, tc.name, [.text "No result provided"], true, now⟩

/-- Membership test of the existingToolResultIds set (Set.has). -/
def containsStr (l : List String) (x : String) : Bool :=
  match l with
  | [] => false
  | a :: rest => x == a || containsStr rest x

/-- The flush of pending tool calls at a boundary: one synthetic result for
each pending call whose id is not among the recorded tool-result ids. -/
def flushPending (now : Nat) (pending : List ToolCall) (existing : List String) : List Message :=
  (pending.filter (fun tc => !containsStr existing tc.id)).map (syntheticToolResult now)

/-- The tool calls of an assistant message's content. -/
def toolCallsOf (content : List ContentBlock) : List ToolCall :=
  content.filterMap (fun b => match b with | .toolCall tc => some tc | _ => none)

/-- Is the stop reason error or aborted? -/
def isErrStop (r : StopReason) : Bool :=
  r == .error || r == .aborted

/-- Stage-2 loop of InsertSyntheticToolResultsTransformation.apply, carrying
the pending tool calls of the most recent assistant message and the
tool-result ids recorded since then. An assistant message first triggers a
flush of any pending calls, is dropped entirely when its stop reason is
error or aborted, and otherwise resets the pending set to its own tool
calls when it has any. -/
def insertLoop (now : Nat) : List Message → List ToolCall → List String → List Message
  | [], _, _ => []
  | .assistant a :: ms, pending, existing =>
    let flushed := if pending.isEmpty then [] else flushPending now pending existing
    let pending1 := if pending.isEmpty then pending else []
    let existing1 := if pending.isEmpty then existing else []
    if isErrStop a.stopReason then
      flushed ++ insertLoop now ms pending1 existing1
    else
      let tcs := toolCallsOf a.content
      if tcs.isEmpty then
        flushed ++ .assistant a :: insertLoop now ms pending1 existing1
      else
        flushed ++ .assistant a :: insertLoop now ms tcs []
  | .toolResult tr :: ms, pending, existing =>
    .toolResult tr :: insertLoop now ms pending (tr.toolCallId :: existing)
  | .user c t :: ms, pending, existing =>
    if pending.isEmpty then
      .user c t :: insertLoop now ms pending existing
    else
      flushPending now pending existing ++ .user c t :: insertLoop now ms [] []

/-- Stage 2, InsertSyntheticToolResultsTransformation.apply; now is the
Date.now() timestamp stamped onto synthetic results. -/
def insertSyntheticToolResultsApply (now : Nat) (messages : List Message) : List Message :=
  insertLoop now messages [] []

/-- Model of transformMessages: the two mandatory stages in order. The
validateMessage structural check run by MessageTransformationPipeline
between stages (defined in types.ts, outside the staged sources) accepts
every well-formed message per its tests and is the identity on the
intrinsically well-typed messages of this model. -/
def transformMessages (model : ModelRef) (norm : Option NormalizeToolCallId)
    (now : Nat) (messages : List Message) : List Message :=
  insertSyntheticToolResultsApply now (normalizeAssistantContentApply model norm messages)

/-! ## Streaming JSON parsing (src/unnamed/part_011) -/

/-- JSON whitespace, the characters JSON.parse skips between tokens. -/
def isJsonWs (c : Char) : Bool :=
  c = ' ' || c = '\t' || c = '\n' || c = '\r'

/-- Skips JSON whitespace. -/
def skipWs (cs : List Char) : List Char :=
  cs.dropWhile isJsonWs

/-- Is the character a hexadecimal digit? -/
def isHexDigitCh (c : Char) : Bool :=
  c.isDigit || ('a' ≤ c && c ≤ 'f') || ('A' ≤ c && c ≤ 'F')

/-- Scans the remainder of a JSON string literal after the opening quote.
Returns the decoded text and, when the closing quote was found, the rest of
the input (none marks input that ended inside the literal); a bad escape or
a raw control character is a parse failure. -/
def scanStringRest : Nat → List Char → List Char → Option (String × Option (List Char))
  | 0, _, _ => none
  | _, [], acc => some (⟨acc.reverse⟩, none)
  | fuel + 1, c :: rest, acc =>
    if c = '"' then some (⟨acc.reverse⟩, some rest)
    else if c = '\\' then
      match rest with
      | [] => some (⟨acc.reverse⟩, none)
      | e :: rest2 =>
        if e = '"' then scanStringRest fuel rest2 ('"' :: acc)
        else if e = '\\' then scanStringRest fuel rest2 ('\\' :: acc)
        else if e = '/' then scanStringRest fuel rest2 ('/' :: acc)
        else if e = 'b' then scanStringRest fuel rest2 (Char.ofNat 8 :: acc)
        else if e = 'f' then scanStringRest fuel rest2 (Char.ofNat 12 :: acc)
        else if e = 'n' then scanStringRest fuel rest2 ('\n' :: acc)
        else if e = 'r' then scanStringRest fuel rest2 ('\r' :: acc)
        else if e = 't' then scanStringRest fuel rest2 ('\t' :: acc)
        else if e = 'u' then
          match rest2 with
          | h1 :: h2 :: h3 :: h4 :: rest3 =>
            if isHexDigitCh h1 && isHexDigitCh h2 && isHexDigitCh h3 && isHexDigitCh h4 then
              let code :=
                4096 * (hexVal h1) + 256 * (hexVal h2) + 16 * (hexVal h3) + hexVal h4
              scanStringRest fuel rest3 (Char.ofNat code :: acc)
            else none
          | _ => some (⟨acc.reverse⟩, none)
        else none
    else if c.toNat < 32 then none
    else scanStringRest fuel rest (c :: acc)
where
  /-- Numeric value of a hexadecimal digit. -/
  hexVal (c : Char) : Nat :=
    if c.isDigit then c.toNat - 48
    else if 'a' ≤ c ∧ c ≤ 'f' then c.toNat - 87
    else if 'A' ≤ c ∧ c ≤ 'F' then c.toNat - 55
    else 0

/-- Scans a JSON number token (sign, integer part, optional fraction and
exponent) and returns its raw text with the remaining input. -/
def parseNumberToken (cs : List Char) : Option (String × List Char) :=
  let (sign, afterSign) :=
    match cs with
    | '-' :: rest => (['-'], rest)
    | _ => ([], cs)
  match afterSign with
  | [] => none
  | c :: _ =>
    if !c.isDigit then none
    else
      let (intPart, afterInt) :=
        if c = '0' then ([c], afterSign.tail)
        else (afterSign.takeWhile Char.isDigit, afterSign.dropWhile Char.isDigit)
      let (fracPart, afterFrac) :=
        match afterInt with
        | '.' :: rest =>
          let ds := rest.takeWhile Char.isDigit
          if ds.isEmpty then ([], none) else ('.' :: ds, some (rest.dropWhile Char.isDigit))
        | _ => ([], some afterInt)
      match afterFrac with
      | none => none
      | some afterFrac =>
        let (expPart, afterExp) :=
          match afterFrac with
          | e :: rest =>
            if e = 'e' ∨ e = 'E' then
              let (es, rest2) :=
                match rest with
                | s :: r2 => if s = '+' ∨ s = '-' then ([e, s], r2) else ([e], rest)
                | [] => ([e], rest)
              let ds := rest2.takeWhile Char.isDigit
              if ds.isEmpty then (([] : List Char), none)
              else (es ++ ds, some (rest2.dropWhile Char.isDigit))
            else ([], some afterFrac)
          | [] => ([], some afterFrac)
        match afterExp with
        | none => none
        | some afterExp => some (⟨sign ++ intPart ++ fracPart ++ expPart⟩, afterExp)

mutual

/-- Recursive-descent value parser modelling JSON.parse; fuel bounds the
recursion and exceeds any actual input's needs at the use sites. -/
def parseJsonValue : Nat → List Char → Option (JsonValue × List Char)
  | 0, _ => none
  | fuel + 1, cs =>
    match skipWs cs with
    | [] => none
    | c :: rest =>
      if c = '{' then
        match skipWs rest with
        | '}' :: more => some (.obj [], more)
        | _ => parseObjBody fuel rest []
      else if c = '[' then
        match skipWs rest with
        | ']' :: more => some (.arr [], more)
        | _ => parseArrBody fuel rest []
      else if c = '"' then
        match scanStringRest (rest.length + 1) rest [] with
        | some (s, some rest2) => some (.str s, rest2)
        | _ => none
      else if c = 't' then
        if "rue".data.isPrefixOf rest then some (.bool true, rest.drop 3) else none
      else if c = 'f' then
        if "alse".data.isPrefixOf rest then some (.bool false, rest.drop 4) else none
      else if c = 'n' then
        if "ull".data.isPrefixOf rest then some (.null, rest.drop 3) else none
      else
        (parseNumberToken (c :: rest)).map (fun p => (.num p.1, p.2))

/-- Object members of the strict parser, after at least one member is
required. -/
def parseObjBody : Nat → List Char → List (String × JsonValue) → Option (JsonValue × List Char)
  | 0, _, _ => none
  | fuel + 1, cs, acc =>
    match skipWs cs with
    | '"' :: rest =>
      match scanStringRest (rest.length + 1) rest [] with
      | some (k, some rest2) =>
        (match skipWs rest2 with
          | ':' :: rest3 =>
            match parseJsonValue fuel rest3 with
            | some (v, rest4) =>
              (match skipWs rest4 with
                | ',' :: rest5 => parseObjBody fuel rest5 (acc ++ [(k, v)])
                | '}' :: rest5 => some (.obj (acc ++ [(k, v)]), rest5)
                | _ => none)
            | none => none
          | _ => none)
      | _ => none
    | _ => none

/-- Array items of the strict parser, after at least one item is
required. -/
def parseArrBody : Nat → List Char → List JsonValue → Option (JsonValue × List Char)
  | 0, _, _ => none
  | fuel + 1, cs, acc =>
    match parseJsonValue fuel cs with
    | some (v, rest) =>
      (match skipWs rest with
        | ',' :: rest2 => parseArrBody fuel rest2 (acc ++ [v])
        | ']' :: rest2 => some (.arr (acc ++ [v]), rest2)
        | _ => none)
    | none => none

end

/-- Model of the external JSON.parse used by the source: strict parse of the
whole input, a thrown SyntaxError being an Except.error carrying a
message. -/
def jsonParseModel (s : String) : Except String JsonValue :=
  match parseJsonValue (s.length + 1) s.data with
  | some (v, rest) =>
    if (skipWs rest).isEmpty then .ok v
    else .error "Unexpected non-whitespace character after JSON"
  | none => .error "Unexpected end of JSON input"

/-- Outcome of the tolerant parser on one value: fully parsed with the rest
of the input, or cut short by the end of the input. -/
inductive TolResult where
  | complete (v : JsonValue) (rest : List Char)
  | truncated (v : JsonValue)

mutual

/-- Modelled from the spec: the value parser of the external partial-json
library (its code is not part of the repository). A truncated document
yields the deepest fully-formed partial structure: a member or element whose
text has not begun is dropped, a begun child contributes its own partial
value; input malformed for another reason is a failure. -/
def tolJsonValue : Nat → List Char → Option TolResult
  | 0, _ => none
  | fuel + 1, cs =>
    match skipWs cs with
    | [] => none
    | c :: rest =>
      if c = '{' then
        match skipWs rest with
        | [] => some (.truncated (.obj []))
        | '}' :: more => some (.complete (.obj []) more)
        | _ => tolObjBody fuel rest []
      else if c = '[' then
        match skipWs rest with
        | [] => some (.truncated (.arr []))
        | ']' :: more => some (.complete (.arr []) more)
        | _ => tolArrBody fuel rest []
      else if c = '"' then
        match scanStringRest (rest.length + 1) rest [] with
        | some (s, some rest2) => some (.complete (.str s) rest2)
        | some (s, none) => some (.truncated (.str s))
        | none => none
      else if c = 't' then
        if "rue".data.isPrefixOf rest then some (.complete (.bool true) (rest.drop 3)) else none
      else if c = 'f' then
        if "alse".data.isPrefixOf rest then some (.complete (.bool false) (rest.drop 4)) else none
      else if c = 'n' then
        if "ull".data.isPrefixOf rest then some (.complete .null (rest.drop 3)) else none
      else
        (parseNumberToken (c :: rest)).map (fun p => .complete (.num p.1) p.2)

/-- Modelled from the spec: tolerant object members. -/
def tolObjBody : Nat → List Char → List (String × JsonValue) → Option TolResult
  | 0, _, _ => none
  | fuel + 1, cs, acc =>
    match skipWs cs with
    | [] => some (.truncated (.obj acc))
    | '"' :: rest =>
      (match scanStringRest (rest.length + 1) rest [] with
        | none => none
        | some (_, none) => some (.truncated (.obj acc))
        | some (k, some rest2) =>
          match skipWs rest2 with
          | [] => some (.truncated (.obj acc))
          | ':' :: rest3 =>
            (match tolJsonValue fuel rest3 with
              | none =>
                if (skipWs rest3).isEmpty then some (.truncated (.obj acc)) else none
              | some (.truncated v) => some (.truncated (.obj (acc ++ [(k, v)])))
              | some (.complete v rest4) =>
                match skipWs rest4 with
                | [] => some (.truncated (.obj (acc ++ [(k, v)])))
                | ',' :: rest5 => tolObjBody fuel rest5 (acc ++ [(k, v)])
                | '}' :: rest5 => some (.complete (.obj (acc ++ [(k, v)])) rest5)
                | _ => none)
          | _ => none)
    | _ => none

/-- Modelled from the spec: tolerant array items. -/
def tolArrBody : Nat → List Char → List JsonValue → Option TolResult
  | 0, _, _ => none
  | fuel + 1, cs, acc =>
    match tolJsonValue fuel cs with
    | none => if (skipWs cs).isEmpty then some (.truncated (.arr acc)) else none
    | some (.truncated v) => some (.truncated (.arr (acc ++ [v])))
    | some (.complete v rest) =>
      match skipWs rest with
      | [] => some (.truncated (.arr (acc ++ [v])))
      | ',' :: rest2 => tolArrBody fuel rest2 (acc ++ [v])
      | ']' :: rest2 => some (.complete (.arr (acc ++ [v])) rest2)
      | _ => none

end

/-- Modelled from the spec: the external partial-json parse entry point; a
truncated top-level value is accepted as its partial structure. -/
def partialJsonParseModel (s : String) : Except String JsonValue :=
  match tolJsonValue (s.length + 1) s.data with
  | some (.complete v rest) =>
    if (skipWs rest).isEmpty then .ok v else .error "MalformedJSON: trailing characters"
  | some (.truncated v) => .ok v
  | none => .error "MalformedJSON"

/-- Model of JavaScript String.prototype.trim: strip leading and trailing
whitespace and line terminators. -/
def trimStr (s : String) : String :=
  ⟨((s.data.dropWhile isJsSpace).reverse.dropWhile isJsSpace).reverse⟩

/-- Options record of parseStreamingJsonWithDiagnostics; absent fields are
none. -/
structure StreamingJsonParseOptions where
  fallbackValue : Option JsonValue := none
  allowPartial : Option Bool := none
  trimInput : Option Bool := none

/-- Result record of parseStreamingJsonWithDiagnostics. -/
structure StreamingJsonParseResult where
  value : JsonValue
  parsed : Bool
  usedPartialParser : Bool
  error : Option String
deriving Repr

/-- Model of parseStreamingJsonWithDiagnostics, generic over the two
external parsers it calls: strictParse is JSON.parse, tolerantParse the
partial-json parse, an Except.error being a thrown exception's message. The
tolerant branch replaces a parsed JSON null by the fallback (the ??
operator applied to the JavaScript null). -/
def parseStreamingJsonWithDiagnostics
    (strictParse tolerantParse : String → Except String JsonValue)
    (partialJson : Option String) (options : StreamingJsonParseOptions) :
    StreamingJsonParseResult :=
  let fallbackValue := options.fallbackValue.getD (.obj [])
  let input := if options.trimInput = some false then partialJson else partialJson.map trimStr
  match input with
  | none => ⟨fallbackValue, false, false, none⟩
  | some s =>
    if s = "" then ⟨fallbackValue, false, false, none⟩
    else
      match strictParse s with
      | .ok v => ⟨v, true, false, none⟩
      | .error jsonError =>
        if options.allowPartial = some false then
          ⟨fallbackValue, false, false, some jsonError⟩
        else
          match tolerantParse s with
          | .ok result =>
            ⟨match result with | .null => fallbackValue | v => v, true, true, none⟩
          | .error perr => ⟨fallbackValue, false, true, some perr⟩

/-- Model of parseStreamingJson: the value of the diagnostic parse. -/
def parseStreamingJson (strictParse tolerantParse : String → Except String JsonValue)
    (partialJson : Option String) (options : StreamingJsonParseOptions) : JsonValue :=
  (parseStreamingJsonWithDiagnostics strictParse tolerantParse partialJson options).value

/-! ## Event stream state machine (EventStream in the
src/src/ai/utils/typebox-helpers.ts source group) -/

/-- The mutable state of an EventStream: the buffered queue, the number of
waiting consumers (each a parked iterator continuation), the done flag, the
replay history and the one-shot deferred final result (none while the
promise is pending). -/
structure EventStreamState (T R : Type) where
  queue : List T
  waiting : Nat
  done : Bool
  history : List T
  finalResult : Option R
deriving Repr, DecidableEq

/-- A freshly constructed stream. -/
def EventStreamState.initial {T R : Type} : EventStreamState T R :=
  ⟨[], 0, false, [], none⟩

/-- Resolution of the deferred promise: only the first resolution takes
effect (a later resolve on a settled promise is a no-op). -/
def resolveOnce {R : Type} (cur : Option R) (r : R) : Option R :=
  match cur with
  | none => some r
  | some x => some x

/-- Model of pushHistory: append, then evict the oldest entries beyond a
positive historyLimit. -/
def pushHistory {T : Type} (limit : Option Nat) (history : List T) (event : T) : List T :=
  let h := history ++ [event]
  match limit with
  | some l => if 0 < l ∧ l < h.length then h.drop (h.length - l) else h
  | none => h

/-- Model of EventStream.push: a no-op once done; otherwise the event is
recorded in history, a complete-matching event settles the stream and
resolves the final result, and the event goes to one waiting consumer when
any exists, else onto the queue. -/
def pushEvent {T R : Type} (isComplete : T → Bool) (extractResult : T → R)
    (limit : Option Nat) (s : EventStreamState T R) (event : T) : EventStreamState T R :=
  if s.done then s
  else
    let s1 := { s with history := pushHistory limit s.history event }
    let s2 :=
      if isComplete event then
        { s1 with done := true, finalResult := resolveOnce s1.finalResult (extractResult event) }
      else s1
    if 0 < s2.waiting then { s2 with waiting := s2.waiting - 1 }
    else { s2 with queue := s2.queue ++ [event] }

/-- Model of EventStream.end: mark the stream done, resolve the final result
only when a result argument is supplied (the settled promise keeps its first
value), and release every waiting consumer with the stream-complete
signal. -/
def endStream {T R : Type} (s : EventStreamState T R) (result : Option R) : EventStreamState T R :=
  { s with
    done := true
    finalResult :=
      match result with
      | some r => resolveOnce s.finalResult r
      | none => s.finalResult
    waiting := 0 }

/-- One producer-side operation on a stream. -/
inductive StreamOp (T R : Type) where
  | push (event : T)
  | endOp (result : Option R)

/-- A producer trace run from a state. -/
def runStreamOps {T R : Type} (isComplete : T → Bool) (extractResult : T → R)
    (limit : Option Nat) : EventStreamState T R → List (StreamOp T R) → EventStreamState T R
  | s, [] => s
  | s, .push e :: ops => runStreamOps isComplete extractResult limit (pushEvent isComplete extractResult limit s e) ops
  | s, .endOp r :: ops => runStreamOps isComplete extractResult limit (endStream s r) ops

/-! ## Provider registry (src/src/ai/api-registry.ts and the
resolveApiProvider entry-point lookup of src/unnamed/part_012) -/

/-- Registration metadata of a provider. -/
structure ApiProviderMetadata where
  sourceId : Option String
  version : Option String
  enabled : Bool
  registeredAt : Nat
  updatedAt : Nat
deriving Repr, DecidableEq

/-- A registry entry; P stands for the ApiProviderInternal record (its api
string and the two wrapped stream closures), opaque to the registry
logic. -/
structure RegisteredApiProvider (P : Type) where
  provider : P
  metadata : ApiProviderMetadata
deriving Repr, DecidableEq

/-- The registry Map as an insertion-ordered association list with unique
keys. -/
abbrev Registry (P : Type) := List (String × RegisteredApiProvider P)

/-- Map.get of the backing map. -/
def regLookup {P : Type} (reg : Registry P) (api : String) : Option (RegisteredApiProvider P) :=
  match reg with
  | [] => none
  | (k, v) :: rest => if k = api then some v else regLookup rest api

/-- Map.set of the backing map: overwrite in place, or append a new key in
insertion order. -/
def regSet {P : Type} (reg : Registry P) (api : String) (entry : RegisteredApiProvider P) :
    Registry P :=
  match reg with
  | [] => [(api, entry)]
  | (k, v) :: rest => if k = api then (k, entry) :: rest else (k, v) :: regSet rest api entry

/-- In-place update of the metadata of the entry at a key. -/
def regUpdate {P : Type} (reg : Registry P) (api : String)
    (f : ApiProviderMetadata → ApiProviderMetadata) : Registry P :=
  match reg with
  | [] => []
  | (k, v) :: rest =>
    if k = api then (k, { v with metadata := f v.metadata }) :: rest
    else (k, v) :: regUpdate rest api f

/-- Options of register. -/
structure RegisterApiProviderOptions where
  sourceId : Option String := none
  version : Option String := none
  enabled : Option Bool := none

/-- Model of ProviderRegistry.register; the runtime type checks of
validateProvider always hold for typed values, and now is Date.now(). -/
def registryRegister {P : Type} (reg : Registry P) (api : String) (provider : P)
    (options : RegisterApiProviderOptions) (now : Nat) : Registry P :=
  let existing := regLookup reg api
  let metadata : ApiProviderMetadata :=
    { sourceId := options.sourceId
      version := options.version
      enabled := options.enabled.getD true
      registeredAt := (existing.map (fun e => e.metadata.registeredAt)).getD now
      updatedAt := now }
  regSet reg api ⟨provider, metadata⟩

/-- Model of ProviderRegistry.get: undefined unless the entry exists and is
enabled. -/
def registryGet {P : Type} (reg : Registry P) (api : String) : Option P :=
  match regLookup reg api with
  | none => none
  | some entry => if entry.metadata.enabled then some entry.provider else none

/-- Model of ProviderRegistry.getWithMetadata. -/
def registryGetWithMetadata {P : Type} (reg : Registry P) (api : String) :
    Option (RegisteredApiProvider P) :=
  regLookup reg api

/-- Model of ProviderRegistry.list. -/
def registryList {P : Type} (reg : Registry P) (includeDisabled : Bool) : List P :=
  (reg.filter (fun p => includeDisabled || p.2.metadata.enabled)).map (fun p => p.2.provider)

/-- Model of ProviderRegistry.enable. -/
def registryEnable {P : Type} (reg : Registry P) (api : String) (now : Nat) :
    Bool × Registry P :=
  match regLookup reg api with
  | none => (false, reg)
  | some _ => (true, regUpdate reg api (fun md => { md with enabled := true, updatedAt := now }))

/-- Model of ProviderRegistry.disable. -/
def registryDisable {P : Type} (reg : Registry P) (api : String) (now : Nat) :
    Bool × Registry P :=
  match regLookup reg api with
  | none => (false, reg)
  | some _ => (true, regUpdate reg api (fun md => { md with enabled := false, updatedAt := now }))

/-- Model of ProviderRegistry.unregisterBySource. -/
def registryUnregisterBySource {P : Type} (reg : Registry P) (sourceId : String) : Registry P :=
  reg.filter (fun p => p.2.metadata.sourceId ≠ some sourceId)

/-- Model of resolveApiProvider: the streaming entry point's lookup, whose
failure is the thrown no-provider error. -/
def resolveApiProvider {P : Type} (reg : Registry P) (api : String) : Except String P :=
  match registryGet reg api with
  | none => .error ("No API provider registered for api: " ++ api)
  | some provider => .ok provider

/-! ## Theorems -/

/-! ### Context overflow (claim C1) -/

/-- Characterization of the window clause of isContextOverflow. -/
theorem windowCheck_iff (m : AssistantMessage) (w : Option Nat) :
    isContextOverflow.windowCheck m w = true ↔
      ∃ n, w = some n ∧ n ≠ 0 ∧ m.stopReason = .stop ∧ m.usage.input + m.usage.cacheRead > n := by
  cases w with
  | none => simp [isContextOverflow.windowCheck]
  | some n =>
    simp only [isContextOverflow.windowCheck]
    by_cases h : n ≠ 0 ∧ m.stopReason = StopReason.stop
    · simp [h, h.1, h.2, and_comm]
    · simp [if_neg h]
      intro h1 h2
      exact absurd ⟨h1, h2⟩ h

/-- The window clause needs stop reason stop. -/
theorem windowCheck_false_of_not_stop (m : AssistantMessage) (w : Option Nat)
    (h : m.stopReason ≠ StopReason.stop) : isContextOverflow.windowCheck m w = false := by
  cases hval : isContextOverflow.windowCheck m w
  · rfl
  · obtain ⟨n, -, -, hstop, -⟩ := (windowCheck_iff m w).mp hval
    exact absurd hstop h

/-- No overflow pattern matches the empty error message. -/
theorem emptyPatternsFalse : (OVERFLOW_PATTERN_CONFIG.any (fun e => e.pattern "")) = false := by
  decide

/-- The status-code form does not match the empty error message. -/
theorem emptyStatusFalse : matchStatusCodeNoBody "" = false := by decide

/-- Full characterization of isContextOverflow over the source patterns. -/
theorem isContextOverflow_iff (m : AssistantMessage) (w : Option Nat) :
    isContextOverflow m w = true ↔
      ((m.stopReason = .error ∧ ∃ em, m.errorMessage = some em ∧
          (OVERFLOW_PATTERN_CONFIG.any (fun entry => entry.pattern em) = true ∨
            matchStatusCodeNoBody em = true)) ∨
        (∃ n, w = some n ∧ n ≠ 0 ∧ m.stopReason = .stop ∧
          m.usage.input + m.usage.cacheRead > n)) := by
  rw [← windowCheck_iff m w]
  unfold isContextOverflow
  by_cases herr : m.stopReason = StopReason.error ∧ (optStrTruthy m.errorMessage : Prop)
  · obtain ⟨hsr, htr⟩ := herr
    have hnstop : m.stopReason ≠ StopReason.stop := by rw [hsr]; intro hc; cases hc
    obtain ⟨em, hem, hne⟩ : ∃ em, m.errorMessage = some em ∧ em ≠ "" := by
      cases hmsg : m.errorMessage with
      | none => rw [hmsg] at htr; exact absurd htr (by simp [optStrTruthy])
      | some em =>
        refine ⟨em, rfl, ?_⟩
        rw [hmsg] at htr
        simpa [optStrTruthy] using htr
    rw [if_pos ⟨hsr, htr⟩, hem]
    simp only [Option.getD_some]
    rw [windowCheck_false_of_not_stop m w hnstop]
    by_cases hpat : (OVERFLOW_PATTERN_CONFIG.any fun entry => entry.pattern em) = true
    · simp only [hpat, if_true]
      simp only [true_iff]
      exact Or.inl ⟨hsr, em, rfl, Or.inl hpat⟩
    · rw [if_neg hpat]
      by_cases hsc : matchStatusCodeNoBody em = true
      · simp only [hsc, if_true, true_iff]
        exact Or.inl ⟨hsr, em, rfl, Or.inr hsc⟩
      · simp only [hsc, if_false]
        constructor
        · intro hfalse; cases hfalse
        · rintro (⟨-, em2, hem2, hdisj⟩ | hw2)
          · cases hem2
            rcases hdisj with h | h
            · exact absurd h hpat
            · exact absurd h hsc
          · cases hw2
  · rw [if_neg herr]
    constructor
    · intro hw2; exact Or.inr hw2
    · rintro (⟨hsr, em, hem, hdisj⟩ | hw2)
      · have hconj : m.stopReason = StopReason.error ∧ (optStrTruthy m.errorMessage : Prop) := by
          refine ⟨hsr, ?_⟩
          rw [hem]
          by_contra hempty
          have : em = "" := by simpa [optStrTruthy] using hempty
          subst this
          rcases hdisj with h | h
          · rw [emptyPatternsFalse] at h; cases h
          · rw [emptyStatusFalse] at h; cases h
        exact absurd hconj herr
      · exact hw2

/-- An all-zero cost record. -/
def zeroCost : Cost := ⟨0, 0, 0, 0, 0⟩

/-- §8 overflow example 1: errored message matching a maintained pattern. -/
def overflowExample1 : AssistantMessage :=
  ⟨[], "api", "prov", "model", ⟨0, 0, 0, 0, 0, zeroCost⟩, .error,
    some "input exceeds the context window", 0⟩

/-- §8 overflow example 2: 1200 input tokens against a 1000-token window. -/
def overflowExample2 : AssistantMessage :=
  ⟨[], "api", "prov", "model", ⟨1200, 0, 0, 0, 1200, zeroCost⟩, .stop, none, 0⟩

/-- §8 overflow example 3: 500 input tokens against a 1000-token window. -/
def overflowExample3 : AssistantMessage :=
  ⟨[], "api", "prov", "model", ⟨500, 0, 0, 0, 500, zeroCost⟩, .stop, none, 0⟩

/-- The claim's reading of isContextOverflow, in which clause (b) requires
only that the contextWindow argument be supplied, not that it be nonzero. -/
def isContextOverflowClaimed (message : AssistantMessage) (contextWindow : Option Nat) : Bool :=
  (message.stopReason == StopReason.error &&
    (match message.errorMessage with
      | some em =>
        OVERFLOW_PATTERN_CONFIG.any (fun entry => entry.pattern em) || matchStatusCodeNoBody em
      | none => false)) ||
  (match contextWindow with
    | some w =>
      message.stopReason == StopReason.stop &&
        decide (message.usage.input + message.usage.cacheRead > w)
    | none => false)

/-- A stopped message with one input token, judged against the window 0. -/
def overflowZeroWindowMessage : AssistantMessage :=
  ⟨[], "api", "prov", "model", ⟨1, 0, 0, 0, 1, zeroCost⟩, .stop, none, 0⟩

/-- C1 counterexample: for the stopped message with usage.input = 1 and
contextWindow supplied as 0, the claimed reading is true (1 + 0 > 0) but
isContextOverflow returns false, because the source tests the JavaScript
truthiness of contextWindow and 0 is falsy. -/
theorem isContextOverflow_zero_window_counterexample :
    isContextOverflow overflowZeroWindowMessage (some 0) = false ∧
      isContextOverflowClaimed overflowZeroWindowMessage (some 0) = true := by
  exact ⟨by decide, by decide⟩

/-- C1 (amended): isContextOverflow m w is true exactly when m errored with
an errorMessage matching one of the maintained overflow patterns or the bare
400/413/429 status-code form, or when a nonzero contextWindow w is supplied,
m stopped normally, and usage.input + usage.cacheRead > w; moreover the
three concrete examples of §8 evaluate to true, true and false. -/
theorem isContextOverflow_characterization :
    (∀ (m : AssistantMessage) (w : Option Nat),
      isContextOverflow m w = true ↔
        ((m.stopReason = .error ∧ ∃ em, m.errorMessage = some em ∧
            (OVERFLOW_PATTERN_CONFIG.any (fun entry => entry.pattern em) = true ∨
              matchStatusCodeNoBody em = true)) ∨
          (∃ n, w = some n ∧ n ≠ 0 ∧ m.stopReason = .stop ∧
            m.usage.input + m.usage.cacheRead > n))) ∧
      isContextOverflow overflowExample1 none = true ∧
      isContextOverflow overflowExample2 (some 1000) = true ∧
      isContextOverflow overflowExample3 (some 1000) = false :=
  ⟨isContextOverflow_iff, by decide, by decide, by decide⟩


/-! ### Retry executor (claims C2 and C3) -/

/-- The retry loop never loses invocations: the final call count is at least
the starting one. -/
theorem retryGo_calls_le {α : Type} (op : Nat → Except JSError α) (policy : RetryPolicy) :
    ∀ (fuel attempt : Nat) (lastErr : Option JSError) (calls : Nat),
      calls ≤ (retryGo op policy fuel attempt lastErr calls).2 := by
  intro fuel
  induction fuel with
  | zero => intro attempt lastErr calls; simp [retryGo]
  | succ k ih =>
    intro attempt lastErr calls
    simp only [retryGo]
    cases op calls with
    | ok v => exact Nat.le_succ calls
    | error e =>
      simp only []
      split
      · exact Nat.le_succ calls
      · exact le_trans (Nat.le_succ calls) (ih (attempt + 1) (some e) (calls + 1))

/-- An always-failing operation with a default-retryable error code is
re-invoked until the attempts are exhausted: the loop adds exactly fuel
invocations and throws the normalized error. -/
theorem retryGo_retryable_exhaust {α : Type} (op : Nat → Except JSError α) (policy : RetryPolicy)
    (e : JSError) (hop : ∀ n, op n = .error e) (hsr : policy.shouldRetry = none)
    (hretry : (normalizeProviderError (some e)).codeOf = .rate_limit ∨
      (normalizeProviderError (some e)).codeOf = .timeout ∨
      (normalizeProviderError (some e)).codeOf = .network) :
    ∀ (fuel attempt : Nat) (lastErr : Option JSError) (calls : Nat), fuel ≠ 0 →
      attempt + fuel = policy.maxAttempts →
      retryGo op policy fuel attempt lastErr calls =
        (.error (normalizeProviderError (some e)), calls + fuel) := by
  intro fuel
  induction fuel with
  | zero => intro _ _ _ h; exact absurd rfl h
  | succ k ih =>
    intro attempt lastErr calls _ htot
    simp only [retryGo, hop calls, hsr]
    have hdec : decide ((normalizeProviderError (some e)).codeOf = ErrorCode.rate_limit ∨
        (normalizeProviderError (some e)).codeOf = ErrorCode.timeout ∨
        (normalizeProviderError (some e)).codeOf = ErrorCode.network) = true :=
      decide_eq_true hretry
    rw [hdec]
    cases k with
    | zero =>
      have : policy.maxAttempts ≤ attempt + 1 := by omega
      rw [if_pos (Or.inr this)]
    | succ k2 =>
      have hcond : ¬(true = false ∨ policy.maxAttempts ≤ attempt + 1) := by
        rintro (h | h)
        · cases h
        · omega
      rw [if_neg hcond]
      rw [ih (attempt + 1) (some e) (calls + 1) (by omega) (by omega)]
      simp only [Prod.mk.injEq]
      exact ⟨trivial, by omega⟩

/-- An always-failing operation whose error code is not default-retryable is
rethrown after a single invocation. -/
theorem retryGo_nonretryable {α : Type} (op : Nat → Except JSError α) (policy : RetryPolicy)
    (e : JSError) (hop : ∀ n, op n = .error e) (hsr : policy.shouldRetry = none)
    (hnretry : ¬((normalizeProviderError (some e)).codeOf = .rate_limit ∨
      (normalizeProviderError (some e)).codeOf = .timeout ∨
      (normalizeProviderError (some e)).codeOf = .network)) :
    ∀ (fuel attempt : Nat) (lastErr : Option JSError) (calls : Nat), fuel ≠ 0 →
      retryGo op policy fuel attempt lastErr calls =
        (.error (normalizeProviderError (some e)), calls + 1) := by
  intro fuel attempt lastErr calls hf
  cases fuel with
  | zero => exact absurd rfl hf
  | succ k =>
    simp only [retryGo, hop calls, hsr]
    rw [decide_eq_false hnretry]
    rw [if_pos (Or.inl rfl)]

/-- C2: under the policy maxAttempts 3, baseDelayMs 250 with no shouldRetry
override, an operation that always throws the Error "rate limit exceeded" is
invoked exactly 3 times and the error finally thrown is the normalized
SimpleOptionsProviderError with code rate_limit; in general, with no
shouldRetry override, an always-failing operation whose normalized code is
rate_limit, timeout or network is invoked maxAttempts times, while one
normalizing to auth, validation or unknown is invoked once and its
normalized error rethrown immediately. -/
theorem executeWithRetry_retry_bound :
    (executeWithRetry (fun _ => (.error (.jsError "rate limit exceeded") : Except JSError Unit))
        { maxAttempts := 3, baseDelayMs := 250 } =
      (.error (.sopError "rate limit exceeded" .rate_limit), 3)) ∧
    (∀ (α : Type) (e : JSError) (policy : RetryPolicy), policy.shouldRetry = none →
      1 ≤ policy.maxAttempts →
      (((normalizeProviderError (some e)).codeOf = .rate_limit ∨
          (normalizeProviderError (some e)).codeOf = .timeout ∨
          (normalizeProviderError (some e)).codeOf = .network) →
        executeWithRetry (fun _ => (.error e : Except JSError α)) policy =
          (.error (normalizeProviderError (some e)), policy.maxAttempts)) ∧
      (((normalizeProviderError (some e)).codeOf = .auth ∨
          (normalizeProviderError (some e)).codeOf = .validation ∨
          (normalizeProviderError (some e)).codeOf = .unknown) →
        executeWithRetry (fun _ => (.error e : Except JSError α)) policy =
          (.error (normalizeProviderError (some e)), 1))) := by
  constructor
  · rfl
  · intro α e policy hsr hmax
    constructor
    · intro hretry
      unfold executeWithRetry
      rw [retryGo_retryable_exhaust (fun _ => .error e) policy e (fun _ => rfl) hsr hretry
        policy.maxAttempts 0 none 0 (by omega) (by omega)]
      simp
    · intro hnon
      unfold executeWithRetry
      have hnretry : ¬((normalizeProviderError (some e)).codeOf = .rate_limit ∨
          (normalizeProviderError (some e)).codeOf = .timeout ∨
          (normalizeProviderError (some e)).codeOf = .network) := by
        rcases hnon with h | h | h <;> rw [h] <;> rintro (hc | hc | hc) <;> cases hc
      rw [retryGo_nonretryable (fun _ => .error e) policy e (fun _ => rfl) hsr hnretry
        policy.maxAttempts 0 none 0 (by omega)]

/-- C3 counterexample: executeWithRetry receives no cancellation signal (its
RetryPolicy has no signal field), so nothing can short-circuit it; for an
operation modelling a fetch that throws immediately because its signal was
already aborted, run under the single-attempt policy that adapters select
when a signal is supplied, the operation is invoked once, not zero times. -/
theorem executeWithRetry_aborted_invokes_once :
    (executeWithRetry
        (fun _ => (.error (.jsError "This operation was aborted") : Except JSError Unit))
        { maxAttempts := 1, baseDelayMs := 250 }).2 = 1 ∧ (1 : Nat) ≠ 0 :=
  ⟨by rfl, by decide⟩

/-- C3 (amended): executeWithRetry has no cancellation-signal parameter and
never short-circuits: whenever maxAttempts ≥ 1 the operation is invoked at
least once, and under maxAttempts = 1 — the policy the adapters pass
together with a cancellation signal, the signal being honored inside the
operation itself — it is invoked exactly once. -/
theorem executeWithRetry_always_invokes :
    ∀ (α : Type) (op : Nat → Except JSError α) (policy : RetryPolicy),
      (1 ≤ policy.maxAttempts → 1 ≤ (executeWithRetry op policy).2) ∧
      (policy.maxAttempts = 1 → (executeWithRetry op policy).2 = 1) := by
  intro α op policy
  constructor
  · intro h1
    unfold executeWithRetry
    obtain ⟨k, hk⟩ : ∃ k, policy.maxAttempts = k + 1 := ⟨policy.maxAttempts - 1, by omega⟩
    rw [hk]
    simp only [retryGo]
    cases op 0 with
    | ok v => simp
    | error e =>
      simp only []
      split
      · simp
      · exact le_trans (by omega) (retryGo_calls_le op policy k 1 (some e) 1)
  · intro h1
    unfold executeWithRetry
    rw [h1]
    simp only [retryGo]
    cases op 0 with
    | ok v => rfl
    | error e =>
      simp only []
      rw [if_pos (Or.inr (by omega : policy.maxAttempts ≤ 0 + 1))]


/-! ### Repair stage drops errored assistants (claim C8) -/

/-- Is the message an assistant message with stop reason error or aborted? -/
def isErrAssistant : Message → Bool
  | .assistant a => isErrStop a.stopReason
  | _ => false

/-- A flush inserts only tool results. -/
theorem flushPending_filter_err (now : Nat) (p : List ToolCall) (e : List String) :
    (flushPending now p e).filter isErrAssistant = [] := by
  rw [List.filter_eq_nil_iff]
  intro m hm
  obtain ⟨tc, -, rfl⟩ := List.mem_map.mp hm
  simp [syntheticToolResult, isErrAssistant]

/-- From any loop state, the stage-2 output holds no errored or aborted
assistant message. -/
theorem insertLoop_no_err_assistant (now : Nat) :
    ∀ (ms : List Message) (p : List ToolCall) (e : List String),
      (insertLoop now ms p e).filter isErrAssistant = [] := by
  intro ms
  induction ms with
  | nil => intro p e; rfl
  | cons m tail ih =>
    intro p e
    cases m with
    | user c t =>
      by_cases hp : p.isEmpty = true
      · simp [insertLoop, hp, List.filter_cons, isErrAssistant, ih]
      · simp [insertLoop, hp, List.filter_append, flushPending_filter_err, List.filter_cons,
          isErrAssistant, ih]
    | toolResult tr =>
      simp [insertLoop, List.filter_cons, isErrAssistant, ih]
    | assistant a =>
      by_cases herr : isErrStop a.stopReason = true
      · by_cases hp : p.isEmpty = true <;>
          simp [insertLoop, hp, herr, List.filter_append, flushPending_filter_err, ih]
      · by_cases hp : p.isEmpty = true <;>
          by_cases htc : (toolCallsOf a.content).isEmpty = true <;>
            simp [insertLoop, hp, herr, htc, List.filter_append, flushPending_filter_err,
              List.filter_cons, isErrAssistant, ih]

/-- C8: the synthetic-tool-result repair stage removes every assistant
message whose stopReason is error or aborted: for every input list, no such
message appears anywhere in the stage's output. -/
theorem insertSynthetic_removes_err_assistants :
    ∀ (now : Nat) (messages : List Message),
      (insertSyntheticToolResultsApply now messages).filter isErrAssistant = [] :=
  fun now messages => insertLoop_no_err_assistant now messages [] []


/-! ### Repair stage idempotence (claim C5) -/

/-- The tool-result ids the stage-2 loop records while passing over a list
prefix (existing grows by one cons per tool result). -/
def trAccIds : List Message → List String → List String
  | [], f => f
  | .toolResult tr :: ms, f => trAccIds ms (tr.toolCallId :: f)
  | .user _ _ :: ms, f => trAccIds ms f
  | .assistant _ :: ms, f => trAccIds ms f

/-- Is every message of the list a tool result? -/
def allToolResults (ms : List Message) : Bool :=
  ms.all (fun m => match m with | .toolResult _ => true | _ => false)

/-- Unfolding of the membership test at a cons. -/
theorem containsStr_cons (a x : String) (l : List String) :
    containsStr (a :: l) x = (x == a || containsStr l x) := rfl

/-- Recording more ids never loses membership. -/
theorem containsStr_trAccIds_mono (ts : List Message) :
    ∀ (f : List String) (x : String), containsStr f x = true →
      containsStr (trAccIds ts f) x = true := by
  induction ts with
  | nil => intro f x h; exact h
  | cons m ms ih =>
    intro f x h
    cases m with
    | toolResult tr =>
      exact ih (tr.toolCallId :: f) x (by rw [containsStr_cons, h, Bool.or_true])
    | user c t => exact ih f x h
    | assistant a => exact ih f x h

/-- A flush consists of tool results only. -/
theorem allToolResults_flushPending (now : Nat) (p : List ToolCall) (e : List String) :
    allToolResults (flushPending now p e) = true := by
  simp only [allToolResults, List.all_eq_true]
  intro m hm
  obtain ⟨tc, -, rfl⟩ := List.mem_map.mp hm
  rfl

/-- The stage-2 loop passes a block of tool results through unchanged,
recording their ids. -/
theorem insertLoop_toolResults_append (now : Nat) :
    ∀ (ts : List Message), allToolResults ts = true →
      ∀ (rest : List Message) (q : List ToolCall) (f : List String),
        insertLoop now (ts ++ rest) q f = ts ++ insertLoop now rest q (trAccIds ts f) := by
  intro ts
  induction ts with
  | nil => intro _ rest q f; rfl
  | cons m ms ih =>
    intro hall rest q f
    cases m with
    | toolResult tr =>
      have hall' : allToolResults ms = true := by simpa [allToolResults] using hall
      simp only [List.cons_append, insertLoop, List.append_eq, trAccIds]
      rw [ih hall' rest q (tr.toolCallId :: f)]
    | user c t => simp [allToolResults] at hall
    | assistant a => simp [allToolResults] at hall

/-- A flush whose pending ids are all recorded inserts nothing. -/
theorem flushPending_eq_nil (now : Nat) (p : List ToolCall) (e : List String)
    (h : ∀ tc ∈ p, containsStr e tc.id = true) : flushPending now p e = [] := by
  unfold flushPending
  have hfil : p.filter (fun tc => !containsStr e tc.id) = [] := by
    rw [List.filter_eq_nil_iff]
    intro tc htc
    simp [h tc htc]
  rw [hfil]
  rfl

/-- Passing over a flush records the id of every pending call that the
flush covered. -/
theorem containsStr_trAccIds_flush (now : Nat) :
    ∀ (p : List ToolCall) (e f : List String) (tc : ToolCall), tc ∈ p →
      containsStr e tc.id = false →
      containsStr (trAccIds (flushPending now p e) f) tc.id = true := by
  intro p
  induction p with
  | nil => intro e f tc h; cases h
  | cons hd tl ih =>
    intro e f tc htc hne
    rcases List.mem_cons.mp htc with rfl | htl
    · have hkeep : (!containsStr e tc.id) = true := by rw [hne]; rfl
      show containsStr (trAccIds
        (((tc :: tl).filter (fun tc2 => !containsStr e tc2.id)).map (syntheticToolResult now)) f)
        tc.id = true
      rw [List.filter_cons, if_pos hkeep, List.map_cons]
      show containsStr (trAccIds _ (tc.id :: f)) tc.id = true
      exact containsStr_trAccIds_mono _ _ _ (by rw [containsStr_cons]; simp)
    · show containsStr (trAccIds
        (((hd :: tl).filter (fun tc2 => !containsStr e tc2.id)).map (syntheticToolResult now)) f)
        tc.id = true
      rw [List.filter_cons]
      cases hhd : containsStr e hd.id with
      | true =>
        rw [if_neg (by simp)]
        exact ih e f tc htl hne
      | false =>
        rw [if_pos (by rfl), List.map_cons]
        show containsStr (trAccIds _ (hd.id :: f)) tc.id = true
        exact ih e (hd.id :: f) tc htl hne

/-- After a flush, every pending id is recorded: either it already had a
tool result (and the record is kept) or the flush inserted one. -/
theorem covered_after_flush (now : Nat) (p : List ToolCall) (e f : List String)
    (hef : ∀ x, containsStr e x = true → containsStr f x = true) :
    ∀ tc ∈ p, containsStr (trAccIds (flushPending now p e) f) tc.id = true := by
  intro tc htc
  cases hce : containsStr e tc.id with
  | false => exact containsStr_trAccIds_flush now p e f tc htc hce
  | true => exact containsStr_trAccIds_mono _ _ _ (hef _ hce)

/-- The relation between the state (pending p, existing e) of a first
stage-2 run and the state (q, f) of a second run over the first run's
output under which the second run reproduces that output unchanged. -/
def ReinsertInv (p q : List ToolCall) (e f : List String) : Prop :=
  (∀ tc ∈ q, containsStr f tc.id = true ∨ tc ∈ p) ∧
  (p ≠ [] → q = p ∧ ∀ x, containsStr e x = true → containsStr f x = true)

/-- The relation holds with both runs' pending sets empty. -/
theorem ReinsertInv.trivialNil (e f : List String) : ReinsertInv [] [] e f :=
  ⟨fun tc htc => absurd htc (List.not_mem_nil tc), fun hp => absurd rfl hp⟩

/-- The relation holds when both runs just took on the same tool calls. -/
theorem ReinsertInv.freshCalls (tcs : List ToolCall) : ReinsertInv tcs tcs [] [] :=
  ⟨fun tc htc => Or.inr htc, fun _ => ⟨rfl, fun x hx => by cases hx⟩⟩

/-- Re-running the stage-2 loop over its own output changes nothing when
the two runs' states are related. -/
theorem insertLoop_reapply (now now2 : Nat) :
    ∀ (ms : List Message) (p q : List ToolCall) (e f : List String),
      ReinsertInv p q e f →
      insertLoop now2 (insertLoop now ms p e) q f = insertLoop now ms p e := by
  intro ms
  induction ms with
  | nil => intro p q e f _; rfl
  | cons m tail ih =>
    intro p q e f hinv
    obtain ⟨hq, himpl⟩ := hinv
    have hnilE : (([] : List ToolCall).isEmpty = true) := rfl
    cases m with
    | toolResult tr =>
      simp only [insertLoop]
      refine congrArg (List.cons (Message.toolResult tr))
        (ih p q (tr.toolCallId :: e) (tr.toolCallId :: f) ⟨?_, ?_⟩)
      · intro tc htc
        rcases hq tc htc with hk | hk
        · exact Or.inl (by rw [containsStr_cons, hk, Bool.or_true])
        · exact Or.inr hk
      · intro hp
        obtain ⟨hqp, hef⟩ := himpl hp
        refine ⟨hqp, fun x hx => ?_⟩
        rw [containsStr_cons] at hx ⊢
        cases hbeq : (x == tr.toolCallId) with
        | true => rw [Bool.true_or]
        | false =>
          rw [hbeq] at hx
          rw [Bool.false_or] at hx ⊢
          exact hef x hx
    | user c t =>
      cases p with
      | nil =>
        have hcov : ∀ tc ∈ q, containsStr f tc.id = true := by
          intro tc htc
          rcases hq tc htc with hk | hk
          · exact hk
          · cases hk
        simp only [insertLoop, if_pos hnilE]
        cases q with
        | nil =>
          simp only [insertLoop, if_pos hnilE]
          exact congrArg (List.cons (Message.user c t)) (ih [] [] e f (ReinsertInv.trivialNil e f))
        | cons qh qt =>
          have hqe : ¬((qh :: qt).isEmpty = true) := by simp
          simp only [insertLoop, if_neg hqe]
          rw [flushPending_eq_nil now2 (qh :: qt) f hcov]
          simp only [List.nil_append]
          exact congrArg (List.cons (Message.user c t)) (ih [] [] e [] (ReinsertInv.trivialNil e []))
      | cons ph pt =>
        obtain ⟨hqp, hef⟩ := himpl (by simp)
        subst hqp
        have hpe : ¬((ph :: pt).isEmpty = true) := by simp
        simp only [insertLoop, if_neg hpe]
        rw [insertLoop_toolResults_append now2 _ (allToolResults_flushPending now _ e)]
        refine congrArg (flushPending now (ph :: pt) e ++ ·) ?_
        simp only [insertLoop, if_neg hpe]
        rw [flushPending_eq_nil now2 _ _ (covered_after_flush now (ph :: pt) e f hef)]
        simp only [List.nil_append]
        exact congrArg (List.cons (Message.user c t)) (ih [] [] [] [] (ReinsertInv.trivialNil [] []))
    | assistant a =>
      cases p with
      | nil =>
        have hcov : ∀ tc ∈ q, containsStr f tc.id = true := by
          intro tc htc
          rcases hq tc htc with hk | hk
          · exact hk
          · cases hk
        by_cases herr : isErrStop a.stopReason = true
        · simp only [insertLoop, if_pos hnilE, if_pos herr]
          exact ih [] q e f ⟨fun tc htc => Or.inl (hcov tc htc), fun hp => absurd rfl hp⟩
        · by_cases htcs : (toolCallsOf a.content).isEmpty = true
          · simp only [insertLoop, if_pos hnilE, if_neg herr, if_pos htcs, List.nil_append]
            cases q with
            | nil =>
              simp only [insertLoop, if_pos hnilE, if_neg herr, if_pos htcs, List.nil_append]
              exact congrArg (List.cons (Message.assistant a))
                (ih [] [] e f (ReinsertInv.trivialNil e f))
            | cons qh qt =>
              have hqe : ¬((qh :: qt).isEmpty = true) := by simp
              simp only [insertLoop, if_neg hqe, if_neg herr, if_pos htcs]
              rw [flushPending_eq_nil now2 (qh :: qt) f hcov]
              simp only [List.nil_append]
              exact congrArg (List.cons (Message.assistant a))
                (ih [] [] e [] (ReinsertInv.trivialNil e []))
          · simp only [insertLoop, if_pos hnilE, if_neg herr, if_neg htcs, List.nil_append]
            cases q with
            | nil =>
              simp only [insertLoop, if_pos hnilE, if_neg herr, if_neg htcs, List.nil_append]
              exact congrArg (List.cons (Message.assistant a))
                (ih (toolCallsOf a.content) (toolCallsOf a.content) [] []
                  (ReinsertInv.freshCalls _))
            | cons qh qt =>
              have hqe : ¬((qh :: qt).isEmpty = true) := by simp
              simp only [insertLoop, if_neg hqe, if_neg herr, if_neg htcs]
              rw [flushPending_eq_nil now2 (qh :: qt) f hcov]
              simp only [List.nil_append]
              exact congrArg (List.cons (Message.assistant a))
                (ih (toolCallsOf a.content) (toolCallsOf a.content) [] []
                  (ReinsertInv.freshCalls _))
      | cons ph pt =>
        obtain ⟨hqp, hef⟩ := himpl (by simp)
        subst hqp
        have hpe : ¬((ph :: pt).isEmpty = true) := by simp
        by_cases herr : isErrStop a.stopReason = true
        · simp only [insertLoop, if_neg hpe, if_pos herr]
          rw [insertLoop_toolResults_append now2 _ (allToolResults_flushPending now _ e)]
          refine congrArg (flushPending now (ph :: pt) e ++ ·) ?_
          exact ih [] (ph :: pt) [] (trAccIds (flushPending now (ph :: pt) e) f)
            ⟨fun tc htc => Or.inl (covered_after_flush now (ph :: pt) e f hef tc htc),
              fun hp => absurd rfl hp⟩
        · by_cases htcs : (toolCallsOf a.content).isEmpty = true
          · simp only [insertLoop, if_neg hpe, if_neg herr, if_pos htcs]
            rw [insertLoop_toolResults_append now2 _ (allToolResults_flushPending now _ e)]
            refine congrArg (flushPending now (ph :: pt) e ++ ·) ?_
            have hqe : ¬((ph :: pt).isEmpty = true) := hpe
            simp only [insertLoop, if_neg hqe, if_neg herr, if_pos htcs]
            rw [flushPending_eq_nil now2 _ _ (covered_after_flush now (ph :: pt) e f hef)]
            simp only [List.nil_append]
            exact congrArg (List.cons (Message.assistant a))
              (ih [] [] [] [] (ReinsertInv.trivialNil [] []))
          · simp only [insertLoop, if_neg hpe, if_neg herr, if_neg htcs]
            rw [insertLoop_toolResults_append now2 _ (allToolResults_flushPending now _ e)]
            refine congrArg (flushPending now (ph :: pt) e ++ ·) ?_
            simp only [insertLoop, if_neg hpe, if_neg herr, if_neg htcs]
            rw [flushPending_eq_nil now2 _ _ (covered_after_flush now (ph :: pt) e f hef)]
            simp only [List.nil_append]
            exact congrArg (List.cons (Message.assistant a))
              (ih (toolCallsOf a.content) (toolCallsOf a.content) [] []
                (ReinsertInv.freshCalls _))


/-- C5: the transformation pipeline is idempotent with respect to the
synthetic-tool-result repair stage: running the repair stage again on its
own output reproduces it exactly, so no additional synthetic
ToolResultMessage is ever inserted for a tool call that already has a
matching result, whatever timestamps the two runs use. -/
theorem insertSynthetic_idempotent :
    ∀ (now now2 : Nat) (messages : List Message),
      insertSyntheticToolResultsApply now2 (insertSyntheticToolResultsApply now messages) =
        insertSyntheticToolResultsApply now messages :=
  fun now now2 messages =>
    insertLoop_reapply now now2 messages [] [] [] [] (ReinsertInv.trivialNil [] [])


/-! ### Tool-call id remapping (claim C4) -/

/-- The claim's normalizer. -/
def normPrefixNormalizer : NormalizeToolCallId := fun id _ _ => "norm-" ++ id

/-- Stage 1 over an appended list: process the prefix, then the suffix from
the prefix's final map. -/
theorem normalizeMessages_append (model : ModelRef) (norm : Option NormalizeToolCallId) :
    ∀ (xs ys : List Message) (idMap : List (String × String)),
      normalizeMessages model norm (xs ++ ys) idMap =
        ((normalizeMessages model norm xs idMap).1 ++
            (normalizeMessages model norm ys (normalizeMessages model norm xs idMap).2).1,
          (normalizeMessages model norm ys (normalizeMessages model norm xs idMap).2).2) := by
  intro xs
  induction xs with
  | nil => intro ys idMap; rfl
  | cons m ms ih =>
    intro ys idMap
    cases m with
    | user c t => simp only [List.cons_append, normalizeMessages, List.append_eq, ih]
    | toolResult tr => simp only [List.cons_append, normalizeMessages, List.append_eq, ih]
    | assistant a => simp only [List.cons_append, normalizeMessages, List.append_eq, ih]

/-- Every binding the normalizer run writes maps a key k to "norm-" ++ k. -/
def MapOk (idMap : List (String × String)) : Prop :=
  ∀ k v, idMap.lookup k = some v → v = "norm-" ++ k

/-- The empty map satisfies the binding discipline. -/
theorem mapOk_nil : MapOk [] := by intro k v h; cases h

/-- One block step preserves the binding discipline. -/
theorem mapOk_block (model : ModelRef) (aMsg : AssistantMessage) (same : Bool)
    (idMap : List (String × String)) (b : ContentBlock) (h : MapOk idMap) :
    MapOk (normalizeBlock model (some normPrefixNormalizer) aMsg same idMap b).2 := by
  cases b with
  | text t => exact h
  | thinking th sig =>
    simp only [normalizeBlock]
    split
    · exact h
    · split
      · exact h
      · split
        · exact h
        · exact h
  | toolCall tc =>
    simp only [normalizeBlock]
    split
    · split
      · intro k v hkv
        simp only [mapSet, List.lookup] at hkv
        cases hbeq : (k == tc.id) with
        | true =>
          rw [hbeq] at hkv
          simp only [] at hkv
          have hk : k = tc.id := eq_of_beq hbeq
          subst hk
          cases hkv
          rfl
        | false =>
          rw [hbeq] at hkv
          exact h k v hkv
      · exact h
    · exact h

/-- A block fold preserves the binding discipline. -/
theorem mapOk_blocks (model : ModelRef) (aMsg : AssistantMessage) (same : Bool) :
    ∀ (bs : List ContentBlock) (idMap : List (String × String)), MapOk idMap →
      MapOk (normalizeBlocks model (some normPrefixNormalizer) aMsg same bs idMap).2 := by
  intro bs
  induction bs with
  | nil => intro idMap h; exact h
  | cons b rest ih =>
    intro idMap h
    simp only [normalizeBlocks]
    exact ih _ (mapOk_block model aMsg same idMap b h)

/-- A message fold preserves the binding discipline. -/
theorem mapOk_messages (model : ModelRef) :
    ∀ (ms : List Message) (idMap : List (String × String)), MapOk idMap →
      MapOk (normalizeMessages model (some normPrefixNormalizer) ms idMap).2 := by
  intro ms
  induction ms with
  | nil => intro idMap h; exact h
  | cons m rest ih =>
    intro idMap h
    cases m with
    | user c t => simp only [normalizeMessages]; exact ih _ h
    | toolResult tr => simp only [normalizeMessages]; exact ih _ h
    | assistant a =>
      simp only [normalizeMessages]
      exact ih _ (mapOk_blocks model a (isSameModel model a) a.content idMap h)

/-- A map extension never loses a key. -/
theorem lookup_isSome_cons (k a v : String) (m : List (String × String))
    (h : (m.lookup k).isSome = true) : ((List.lookup k ((a, v) :: m))).isSome = true := by
  rw [List.lookup]
  cases hbeq : (k == a) with
  | true => rfl
  | false => exact h

/-- One block step never loses a key. -/
theorem lookup_isSome_block (model : ModelRef) (norm : Option NormalizeToolCallId)
    (aMsg : AssistantMessage) (same : Bool) (idMap : List (String × String))
    (b : ContentBlock) (k : String) (h : (idMap.lookup k).isSome = true) :
    (((normalizeBlock model norm aMsg same idMap b).2).lookup k).isSome = true := by
  cases b with
  | text t => exact h
  | thinking th sig =>
    simp only [normalizeBlock]
    split
    · exact h
    · split
      · exact h
      · split
        · exact h
        · exact h
  | toolCall tc =>
    simp only [normalizeBlock]
    split
    · cases norm with
      | none => exact h
      | some f =>
        simp only []
        split
        · exact lookup_isSome_cons k tc.id _ idMap h
        · exact h
    · exact h

/-- A block fold never loses a key. -/
theorem lookup_isSome_blocks (model : ModelRef) (norm : Option NormalizeToolCallId)
    (aMsg : AssistantMessage) (same : Bool) :
    ∀ (bs : List ContentBlock) (idMap : List (String × String)) (k : String),
      (idMap.lookup k).isSome = true →
      (((normalizeBlocks model norm aMsg same bs idMap).2).lookup k).isSome = true := by
  intro bs
  induction bs with
  | nil => intro idMap k h; exact h
  | cons b rest ih =>
    intro idMap k h
    simp only [normalizeBlocks]
    exact ih _ k (lookup_isSome_block model norm aMsg same idMap b k h)

/-- A message fold never loses a key. -/
theorem lookup_isSome_messages (model : ModelRef) (norm : Option NormalizeToolCallId) :
    ∀ (ms : List Message) (idMap : List (String × String)) (k : String),
      (idMap.lookup k).isSome = true →
      (((normalizeMessages model norm ms idMap).2).lookup k).isSome = true := by
  intro ms
  induction ms with
  | nil => intro idMap k h; exact h
  | cons m rest ih =>
    intro idMap k h
    cases m with
    | user c t => simp only [normalizeMessages]; exact ih _ k h
    | toolResult tr => simp only [normalizeMessages]; exact ih _ k h
    | assistant a =>
      simp only [normalizeMessages]
      exact ih _ k (lookup_isSome_blocks model norm a (isSameModel model a) a.content idMap k h)

/-- The block fold over an appended content list. -/
theorem normalizeBlocks_append (model : ModelRef) (norm : Option NormalizeToolCallId)
    (aMsg : AssistantMessage) (same : Bool) :
    ∀ (xs ys : List ContentBlock) (idMap : List (String × String)),
      normalizeBlocks model norm aMsg same (xs ++ ys) idMap =
        ((normalizeBlocks model norm aMsg same xs idMap).1 ++
            (normalizeBlocks model norm aMsg same ys
              (normalizeBlocks model norm aMsg same xs idMap).2).1,
          (normalizeBlocks model norm aMsg same ys
            (normalizeBlocks model norm aMsg same xs idMap).2).2) := by
  intro xs
  induction xs with
  | nil => intro ys idMap; rfl
  | cons b rest ih =>
    intro ys idMap
    simp only [List.cons_append, normalizeBlocks, List.append_eq, ih, List.append_assoc]

/-- Processing the tool call with id "orig" for a different model under the
claim's normalizer: the block image is the renamed (and signature-stripped)
tool call and the map binds "orig" to "norm-orig". -/
theorem normalizeBlock_orig (model : ModelRef) (aMsg : AssistantMessage)
    (idMap : List (String × String)) (tc : ToolCall) (hid : tc.id = "orig") :
    normalizeBlock model (some normPrefixNormalizer) aMsg false idMap (.toolCall tc) =
      ([ContentBlock.toolCall ⟨"norm-orig", tc.name, tc.arguments,
          if optStrTruthy tc.thoughtSignature = true then none else tc.thoughtSignature⟩],
        ("orig", "norm-orig") :: idMap) := by
  simp only [normalizeBlock, Bool.not_false, Bool.true_and]
  rw [if_pos trivial]
  rw [hid]
  have hne : normPrefixNormalizer "orig" model aMsg ≠ "orig" := by
    show ("norm-" ++ "orig" : String) ≠ "orig"
    decide
  rw [if_pos hne]
  cases htr : optStrTruthy tc.thoughtSignature with
  | true =>
    rw [if_pos (rfl : (true = true))]
    rfl
  | false =>
    rw [if_neg (by decide : ¬(false = true))]
    rfl

/-- Stage 1 maps messages one to one. -/
theorem normalizeMessages_length (model : ModelRef) (norm : Option NormalizeToolCallId) :
    ∀ (ms : List Message) (idMap : List (String × String)),
      (normalizeMessages model norm ms idMap).1.length = ms.length := by
  intro ms
  induction ms with
  | nil => intro idMap; rfl
  | cons m rest ih =>
    intro idMap
    cases m with
    | user c t => simp only [normalizeMessages, List.length_cons, ih]
    | toolResult tr => simp only [normalizeMessages, List.length_cons, ih]
    | assistant a => simp only [normalizeMessages, List.length_cons, ih]

/-- Under the binding discipline, a present key "orig" is bound to
"norm-orig". -/
theorem lookup_orig_value (m : List (String × String)) (hok : MapOk m)
    (hsome : (List.lookup "orig" m).isSome = true) :
    List.lookup "orig" m = some "norm-orig" := by
  cases hv : List.lookup "orig" m with
  | none => rw [hv] at hsome; cases hsome
  | some v => rw [hok "orig" v hv]; rfl

theorem normalize_remap_propagates
    (model : ModelRef) (pre mid post : List Message) (aMsg : AssistantMessage)
    (cpre cpost : List ContentBlock) (tc : ToolCall) (tr : ToolResultMessage)
    (hsame : isSameModel model aMsg = false)
    (hcontent : aMsg.content = cpre ++ ContentBlock.toolCall tc :: cpost)
    (hid : tc.id = "orig") (htrid : tr.toolCallId = "orig") :
    ∃ (outPre outMid outPost : List Message) (content1 : List ContentBlock),
      normalizeAssistantContentApply model (some normPrefixNormalizer)
          (pre ++ Message.assistant aMsg :: (mid ++ Message.toolResult tr :: post)) =
        outPre ++ Message.assistant { aMsg with content := content1 } ::
          (outMid ++ Message.toolResult { tr with toolCallId := "norm-orig" } :: outPost) ∧
      outPre.length = pre.length ∧ outMid.length = mid.length ∧
      ContentBlock.toolCall ⟨"norm-orig", tc.name, tc.arguments,
        if optStrTruthy tc.thoughtSignature = true then none
        else tc.thoughtSignature⟩ ∈ content1 := by
  have hMpre : MapOk (normalizeMessages model (some normPrefixNormalizer) pre []).2 :=
    mapOk_messages model pre [] mapOk_nil
  have hblocks := normalizeBlocks_append model (some normPrefixNormalizer) aMsg false cpre
    (ContentBlock.toolCall tc :: cpost)
    (normalizeMessages model (some normPrefixNormalizer) pre []).2
  have hMA : MapOk (normalizeBlocks model (some normPrefixNormalizer) aMsg false cpre
      (normalizeMessages model (some normPrefixNormalizer) pre []).2).2 :=
    mapOk_blocks model aMsg false cpre _ hMpre
  -- the map after the whole content of the assistant message
  have hm1ok : MapOk (normalizeBlocks model (some normPrefixNormalizer) aMsg false aMsg.content
      (normalizeMessages model (some normPrefixNormalizer) pre []).2).2 :=
    mapOk_blocks model aMsg false aMsg.content _ hMpre
  have hm1some : ((normalizeBlocks model (some normPrefixNormalizer) aMsg false aMsg.content
      (normalizeMessages model (some normPrefixNormalizer) pre []).2).2.lookup "orig").isSome
        = true := by
    rw [hcontent, hblocks]
    simp only [normalizeBlocks, normalizeBlock_orig model aMsg _ tc hid]
    apply lookup_isSome_blocks
    rw [List.lookup]
    rfl
  have hm2ok : MapOk (normalizeMessages model (some normPrefixNormalizer) mid
      (normalizeBlocks model (some normPrefixNormalizer) aMsg false aMsg.content
        (normalizeMessages model (some normPrefixNormalizer) pre []).2).2).2 :=
    mapOk_messages model mid _ hm1ok
  have hm2some := lookup_isSome_messages model (some normPrefixNormalizer) mid
    (normalizeBlocks model (some normPrefixNormalizer) aMsg false aMsg.content
      (normalizeMessages model (some normPrefixNormalizer) pre []).2).2 "orig" hm1some
  have hlk2 := lookup_orig_value _ hm2ok hm2some
  refine ⟨(normalizeMessages model (some normPrefixNormalizer) pre []).1,
    (normalizeMessages model (some normPrefixNormalizer) mid
      (normalizeBlocks model (some normPrefixNormalizer) aMsg false aMsg.content
        (normalizeMessages model (some normPrefixNormalizer) pre []).2).2).1,
    (normalizeMessages model (some normPrefixNormalizer) post
      (normalizeMessages model (some normPrefixNormalizer) mid
        (normalizeBlocks model (some normPrefixNormalizer) aMsg false aMsg.content
          (normalizeMessages model (some normPrefixNormalizer) pre []).2).2).2).1,
    (normalizeBlocks model (some normPrefixNormalizer) aMsg false aMsg.content
      (normalizeMessages model (some normPrefixNormalizer) pre []).2).1,
    ?_, normalizeMessages_length model _ pre [], normalizeMessages_length model _ mid _, ?_⟩
  · unfold normalizeAssistantContentApply
    rw [normalizeMessages_append model (some normPrefixNormalizer) pre
      (Message.assistant aMsg :: (mid ++ Message.toolResult tr :: post)) []]
    simp only [normalizeMessages, hsame]
    rw [normalizeMessages_append model (some normPrefixNormalizer) mid
      (Message.toolResult tr :: post)]
    simp only [normalizeMessages, htrid, hlk2]
    rw [if_pos (by decide : ("norm-orig" : String) ≠ "" ∧ ("norm-orig" : String) ≠ "orig")]
  · rw [hcontent, hblocks]
    simp only [normalizeBlocks, normalizeBlock_orig model aMsg _ tc hid]
    apply List.mem_append_right
    exact List.mem_append_left _ (List.mem_singleton.mpr rfl)


/-- A zero usage record. -/
def zeroUsage : Usage := ⟨0, 0, 0, 0, 0, zeroCost⟩

/-- The target model of the concrete §8 remap scenario. -/
def c4TargetModel : ModelRef := ⟨"anthropic-messages", "anthropic", "claude-4"⟩

/-- The assistant message of the scenario, produced by a different model,
holding the tool call with id "orig". -/
def c4SourceAssistant : AssistantMessage :=
  ⟨[.toolCall ⟨"orig", "search", .obj [], none⟩], "openai-responses", "openai", "gpt-5",
    zeroUsage, .toolUse, none, 0⟩

/-- The tool result referencing "orig". -/
def c4ToolResult : ToolResultMessage := ⟨"orig", "search", [.text "ok"], false, 1⟩

/-- C4: transforming for a different model with the normalizer
id => "norm-" ++ id rewrites a ToolCall id "orig" to "norm-orig" and
propagates the same substitution to every later ToolResultMessage whose
toolCallId is "orig"; in general over stage 1 for any surrounding messages,
and concretely through the full transformMessages pipeline for the §8
scenario. -/
theorem transformMessages_id_remap_propagation :
    (∀ (model : ModelRef) (pre mid post : List Message) (aMsg : AssistantMessage)
        (cpre cpost : List ContentBlock) (tc : ToolCall) (tr : ToolResultMessage),
      isSameModel model aMsg = false →
      aMsg.content = cpre ++ ContentBlock.toolCall tc :: cpost →
      tc.id = "orig" → tr.toolCallId = "orig" →
      ∃ (outPre outMid outPost : List Message) (content1 : List ContentBlock),
        normalizeAssistantContentApply model (some normPrefixNormalizer)
            (pre ++ Message.assistant aMsg :: (mid ++ Message.toolResult tr :: post)) =
          outPre ++ Message.assistant { aMsg with content := content1 } ::
            (outMid ++ Message.toolResult { tr with toolCallId := "norm-orig" } :: outPost) ∧
        outPre.length = pre.length ∧ outMid.length = mid.length ∧
        ContentBlock.toolCall ⟨"norm-orig", tc.name, tc.arguments,
          if optStrTruthy tc.thoughtSignature = true then none
          else tc.thoughtSignature⟩ ∈ content1) ∧
    transformMessages c4TargetModel (some normPrefixNormalizer) 7
        [.assistant c4SourceAssistant, .toolResult c4ToolResult] =
      [.assistant { c4SourceAssistant with
          content := [.toolCall ⟨"norm-orig", "search", .obj [], none⟩] },
        .toolResult { c4ToolResult with toolCallId := "norm-orig" }] :=
  ⟨fun model pre mid post aMsg cpre cpost tc tr =>
    normalize_remap_propagates model pre mid post aMsg cpre cpost tc tr, by rfl⟩


/-! ### Streaming JSON parse wrapper (claim C6) -/


/-- Whenever the parse did not succeed, the returned value is the
caller-supplied fallback (default the empty object) - the function never
throws, it falls back. -/
theorem psjd_fallback (sp tp : String → Except String JsonValue) (inp : Option String)
    (opts : StreamingJsonParseOptions) :
    (parseStreamingJsonWithDiagnostics sp tp inp opts).parsed = false →
    (parseStreamingJsonWithDiagnostics sp tp inp opts).value =
      opts.fallbackValue.getD (.obj []) := by
  unfold parseStreamingJsonWithDiagnostics
  split
  · cases inp with
    | none => intro _; rfl
    | some s =>
      dsimp only
      by_cases hs : s = ""
      · rw [if_pos hs]; intro _; rfl
      · rw [if_neg hs]
        cases hsp : sp s with
        | ok v => dsimp only; intro h; cases h
        | error err =>
          dsimp only
          by_cases hap : opts.allowPartial = some false
          · rw [if_pos hap]; intro _; rfl
          · rw [if_neg hap]
            cases htp : tp s with
            | ok v => dsimp only; intro h; cases h
            | error perr => dsimp only; intro _; rfl
  · cases inp with
    | none => intro _; rfl
    | some s0 =>
      dsimp only [Option.map]
      by_cases hs : trimStr s0 = ""
      · rw [if_pos hs]; intro _; rfl
      · rw [if_neg hs]
        cases hsp : sp (trimStr s0) with
        | ok v => dsimp only; intro h; cases h
        | error err =>
          dsimp only
          by_cases hap : opts.allowPartial = some false
          · rw [if_pos hap]; intro _; rfl
          · rw [if_neg hap]
            cases htp : tp (trimStr s0) with
            | ok v => dsimp only; intro h; cases h
            | error perr => dsimp only; intro _; rfl

/-- A successful strict parse is returned as is: parsed with the partial
parser untouched. -/
theorem psjd_strict_first (sp tp : String → Except String JsonValue) (s : String)
    (opts : StreamingJsonParseOptions) (v : JsonValue)
    (htrim : opts.trimInput = some false) (hs : s ≠ "") (hsp : sp s = .ok v) :
    parseStreamingJsonWithDiagnostics sp tp (some s) opts = ⟨v, true, false, none⟩ := by
  unfold parseStreamingJsonWithDiagnostics
  rw [if_pos htrim]
  dsimp only
  rw [if_neg hs, hsp]

/-- C6: parseStreamingJsonWithDiagnostics never throws: for every pair of
external parsers and every input, a failed parse yields the caller-supplied
fallback value (default the empty object) with parsed = false; a successful
strict parse is returned directly; and with the modelled external parsers,
parsing the string of an open object brace, key and colon with partial
parsing allowed yields parsed = true and usedPartialParser = true with value
the empty object, while parsing "not json" with allowPartial = false yields
parsed = false and the supplied fallback. -/
theorem parseStreamingJson_never_throws :
    (∀ (strictParse tolerantParse : String → Except String JsonValue)
        (partialJson : Option String) (options : StreamingJsonParseOptions),
      (parseStreamingJsonWithDiagnostics strictParse tolerantParse partialJson options).parsed
          = false →
        (parseStreamingJsonWithDiagnostics strictParse tolerantParse partialJson options).value
          = options.fallbackValue.getD (.obj [])) ∧
    (∀ (strictParse tolerantParse : String → Except String JsonValue) (s : String)
        (options : StreamingJsonParseOptions) (v : JsonValue),
      options.trimInput = some false → s ≠ "" → strictParse s = .ok v →
      parseStreamingJsonWithDiagnostics strictParse tolerantParse (some s) options =
        ⟨v, true, false, none⟩) ∧
    ((parseStreamingJsonWithDiagnostics jsonParseModel partialJsonParseModel
        (some "\x7b\"a\":") {}).parsed = true ∧
      (parseStreamingJsonWithDiagnostics jsonParseModel partialJsonParseModel
        (some "\x7b\"a\":") {}).usedPartialParser = true ∧
      (parseStreamingJsonWithDiagnostics jsonParseModel partialJsonParseModel
        (some "\x7b\"a\":") {}).value = .obj []) ∧
    (parseStreamingJsonWithDiagnostics jsonParseModel partialJsonParseModel
        (some "not json")
        { allowPartial := some false, fallbackValue := some (.str "FB") }).parsed = false ∧
    (parseStreamingJsonWithDiagnostics jsonParseModel partialJsonParseModel
        (some "not json")
        { allowPartial := some false, fallbackValue := some (.str "FB") }).value = .str "FB" ∧
    (parseStreamingJsonWithDiagnostics jsonParseModel partialJsonParseModel
        (some "not json") { allowPartial := some false }).value = .obj [] :=
  ⟨psjd_fallback, psjd_strict_first, ⟨rfl, rfl, rfl⟩, rfl, rfl, rfl⟩


/-! ### Event stream terminal behavior (claims C7 and C9) -/


/-- A push on a settled stream changes nothing at all. -/
theorem pushEvent_done_noop {T R : Type} (isComplete : T → Bool) (extractResult : T → R)
    (limit : Option Nat) (s : EventStreamState T R) (e : T) (h : s.done = true) :
    pushEvent isComplete extractResult limit s e = s := by
  unfold pushEvent
  rw [if_pos h]

/-- A push whose event matches isComplete settles the stream. -/
theorem pushEvent_complete_done {T R : Type} (isComplete : T → Bool) (extractResult : T → R)
    (limit : Option Nat) (s : EventStreamState T R) (e : T) (h : isComplete e = true) :
    (pushEvent isComplete extractResult limit s e).done = true := by
  unfold pushEvent
  by_cases hd : s.done = true
  · rw [if_pos hd]; exact hd
  · rw [if_neg hd]
    dsimp only
    rw [if_pos h]
    split <;> rfl

/-- Ending twice with the same argument equals ending once. -/
theorem endStream_idem {T R : Type} (s : EventStreamState T R) (r : Option R) :
    endStream (endStream s r) r = endStream s r := by
  unfold endStream
  cases r with
  | none => rfl
  | some v =>
    dsimp only
    cases s.finalResult <;> rfl

/-- A push of a non-complete event leaves the deferred final result
untouched. -/
theorem pushEvent_not_complete_finalResult {T R : Type} (isComplete : T → Bool)
    (extractResult : T → R) (limit : Option Nat) (s : EventStreamState T R) (e : T)
    (h : isComplete e = false) :
    (pushEvent isComplete extractResult limit s e).finalResult = s.finalResult := by
  unfold pushEvent
  by_cases hd : s.done = true
  · rw [if_pos hd]
  · rw [if_neg hd]
    dsimp only
    have hni : ¬(isComplete e = true) := by rw [h]; exact Bool.false_ne_true
    rw [if_neg hni]
    split <;> rfl

/-- A trace of non-complete pushes and bare ends never resolves a pending
final result. -/
theorem runStreamOps_benign_finalResult {T R : Type} (isComplete : T → Bool)
    (extractResult : T → R) (limit : Option Nat) :
    ∀ (ops : List (StreamOp T R)) (s : EventStreamState T R),
      s.finalResult = none →
      (∀ op ∈ ops, match op with
        | .push e => isComplete e = false
        | .endOp r => r = none) →
      (runStreamOps isComplete extractResult limit s ops).finalResult = none := by
  intro ops
  induction ops with
  | nil => intro s hs _; exact hs
  | cons op rest ih =>
    intro s hs hall
    cases op with
    | push e =>
      have he : isComplete e = false := hall (.push e) (List.mem_cons_self _ _)
      have hall' : ∀ op ∈ rest, match op with
          | StreamOp.push e => isComplete e = false
          | StreamOp.endOp r => r = none :=
        fun op hop => hall op (List.mem_cons_of_mem _ hop)
      simp only [runStreamOps]
      exact ih _ (by rw [pushEvent_not_complete_finalResult _ _ _ _ _ he]; exact hs) hall'
    | endOp r =>
      have hr : r = none := hall (.endOp r) (List.mem_cons_self _ _)
      subst hr
      have hall' : ∀ op ∈ rest, match op with
          | StreamOp.push e => isComplete e = false
          | StreamOp.endOp r => r = none :=
        fun op hop => hall op (List.mem_cons_of_mem _ hop)
      simp only [runStreamOps]
      exact ih _ hs hall'

/-- C7: once a stream is terminal - a complete-matching event was pushed
(which sets done) or end() was called (done is set unconditionally) - every
subsequent push is a no-op leaving queue, waiting consumers, replay history
and final result unchanged, and calling end() again with the same argument
leaves the state unchanged (end is idempotent). -/
theorem eventStream_terminal_noop :
    ∀ (T R : Type) (isComplete : T → Bool) (extractResult : T → R) (limit : Option Nat)
      (s : EventStreamState T R) (e : T) (r : Option R),
      (s.done = true → pushEvent isComplete extractResult limit s e = s) ∧
      ((endStream s r).done = true) ∧
      (isComplete e = true → (pushEvent isComplete extractResult limit s e).done = true) ∧
      (endStream (endStream s r) r = endStream s r) :=
  fun T R isComplete extractResult limit s e r =>
    ⟨pushEvent_done_noop isComplete extractResult limit s e,
      rfl,
      pushEvent_complete_done isComplete extractResult limit s e,
      endStream_idem s r⟩

/-- C9: a stream whose producer trace contains only pushes of events not
matching isComplete and end() calls without a result argument never resolves
its deferred final result - it stays pending forever even though end() marks
the stream done and releases every waiting iterator; equivalently the final
result is settled only by a complete-matching push or an end(result) with a
result supplied. -/
theorem eventStream_end_without_result_never_resolves :
    ∀ (T R : Type) (isComplete : T → Bool) (extractResult : T → R) (limit : Option Nat)
      (ops : List (StreamOp T R)),
      ((∀ op ∈ ops, match op with
          | .push e => isComplete e = false
          | .endOp r => r = none) →
        (runStreamOps isComplete extractResult limit EventStreamState.initial ops).finalResult
          = none) ∧
      (∀ s : EventStreamState T R,
        (endStream s none).done = true ∧ (endStream s none).waiting = 0 ∧
          (endStream s none).finalResult = s.finalResult) :=
  fun T R isComplete extractResult limit ops =>
    ⟨runStreamOps_benign_finalResult isComplete extractResult limit ops
        EventStreamState.initial rfl,
      fun _ => ⟨rfl, rfl, rfl⟩⟩


/-! ### Provider registry disable/enable (claim C10) -/


/-- Looking up the updated key sees the updated metadata. -/
theorem regLookup_regUpdate_eq {P : Type} (f : ApiProviderMetadata → ApiProviderMetadata) :
    ∀ (reg : Registry P) (api : String),
      regLookup (regUpdate reg api f) api =
        (regLookup reg api).map (fun entry => { entry with metadata := f entry.metadata }) := by
  intro reg
  induction reg with
  | nil => intro api; rfl
  | cons kv rest ih =>
    intro api
    obtain ⟨k, v⟩ := kv
    by_cases hk : k = api
    · simp only [regUpdate, if_pos hk, regLookup]
      rfl
    · simp only [regUpdate, if_neg hk, regLookup, if_neg hk]
      exact ih api

/-- Filtering out an absent key changes nothing. -/
theorem filter_ne_key_self {P : Type} :
    ∀ (reg : Registry P) (api : String), api ∉ reg.map Prod.fst →
      reg.filter (fun p => p.1 != api) = reg := by
  intro reg
  induction reg with
  | nil => intro api _; rfl
  | cons kv rest ih =>
    intro api hmem
    obtain ⟨k, v⟩ := kv
    have hk : k ≠ api := fun h => hmem (by rw [← h]; exact List.mem_cons_self _ _)
    have hne : ((k, v).1 != api) = true := by simpa using hk
    rw [List.filter_cons, if_pos hne]
    rw [ih api (fun h => hmem (List.mem_cons_of_mem _ h))]

/-- Updating the head entry. -/
theorem regUpdate_cons_eq {P : Type} (k : String) (v : RegisteredApiProvider P)
    (rest : Registry P) (f : ApiProviderMetadata → ApiProviderMetadata) :
    regUpdate ((k, v) :: rest) k f = (k, { v with metadata := f v.metadata }) :: rest := by
  simp [regUpdate]

/-- Updating past a different head key. -/
theorem regUpdate_cons_ne {P : Type} (k api : String) (v : RegisteredApiProvider P)
    (rest : Registry P) (f : ApiProviderMetadata → ApiProviderMetadata) (hk : k ≠ api) :
    regUpdate ((k, v) :: rest) api f = (k, v) :: regUpdate rest api f := by
  simp [regUpdate, hk]

/-- One step of list: the head appears exactly when includeDisabled or the
entry is enabled. -/
theorem registryList_cons {P : Type} (k : String) (v : RegisteredApiProvider P)
    (rest : Registry P) (b : Bool) :
    registryList ((k, v) :: rest) b =
      if (b || v.metadata.enabled) = true then v.provider :: registryList rest b
      else registryList rest b := by
  simp only [registryList, List.filter_cons]
  by_cases hc : (b || v.metadata.enabled) = true
  · rw [if_pos hc, if_pos hc, List.map_cons]
  · rw [if_neg hc, if_neg hc]

/-- After disabling one key (unique keys), the enabled-only listing equals
the listing of the registry without that key. -/
theorem registryList_regUpdate_disable {P : Type} (now : Nat) :
    ∀ (reg : Registry P) (api : String), (reg.map Prod.fst).Nodup →
      registryList
          (regUpdate reg api (fun md => { md with enabled := false, updatedAt := now })) false =
        registryList (reg.filter (fun p => p.1 != api)) false := by
  intro reg
  induction reg with
  | nil => intro api _; rfl
  | cons kv rest ih =>
    intro api hnd
    obtain ⟨k, v⟩ := kv
    have hndrest : (rest.map Prod.fst).Nodup := by
      simp only [List.map_cons, List.nodup_cons] at hnd
      exact hnd.2
    by_cases hk : k = api
    · subst hk
      have hnotmem : k ∉ rest.map Prod.fst := by
        simp only [List.map_cons, List.nodup_cons] at hnd
        exact hnd.1
      rw [regUpdate_cons_eq, registryList_cons]
      rw [if_neg (by simp)]
      rw [List.filter_cons, if_neg (by simp)]
      rw [filter_ne_key_self rest k hnotmem]
    · have hne : ((k, v).1 != api) = true := by simpa using hk
      rw [regUpdate_cons_ne k api v rest _ hk, registryList_cons,
        List.filter_cons, if_pos hne, registryList_cons, ih api hndrest]

/-- Listing with includeDisabled yields every provider. -/
theorem registryList_true_eq_map {P : Type} :
    ∀ reg : Registry P, registryList reg true = reg.map (fun p => p.2.provider) := by
  intro reg
  induction reg with
  | nil => rfl
  | cons kv rest ih =>
    obtain ⟨k, v⟩ := kv
    rw [registryList_cons, if_pos (by simp), ih, List.map_cons]

/-- A looked-up provider occurs in the full provider listing. -/
theorem regLookup_provider_mem {P : Type} :
    ∀ (reg : Registry P) (api : String) (entry : RegisteredApiProvider P),
      regLookup reg api = some entry →
      entry.provider ∈ reg.map (fun p => p.2.provider) := by
  intro reg
  induction reg with
  | nil => intro api entry h; cases h
  | cons kv rest ih =>
    intro api entry h
    obtain ⟨k, v⟩ := kv
    rw [regLookup] at h
    by_cases hk : k = api
    · rw [if_pos hk] at h
      cases h
      exact List.mem_cons_self _ _
    · rw [if_neg hk] at h
      exact List.mem_cons_of_mem _ (ih api entry h)

/-- C10: for a registered api (registry keys unique), disable(api) succeeds
and afterwards get(api) returns undefined exactly as if the provider were
not registered - the streaming entry point's resolveApiProvider throws the
"No API provider registered" error - while getWithMetadata still returns
the (now disabled, freshly stamped) entry, list includes the provider only
when includeDisabled is true, and a subsequent enable(api) restores
get(api) to the provider. -/
theorem registry_disable_enable_roundtrip :
    ∀ (P : Type) (reg : Registry P) (api : String) (entry : RegisteredApiProvider P)
      (now now2 : Nat),
      (reg.map Prod.fst).Nodup →
      regLookup reg api = some entry →
      (registryDisable reg api now).1 = true ∧
      registryGet (registryDisable reg api now).2 api = none ∧
      registryGetWithMetadata (registryDisable reg api now).2 api =
        some ⟨entry.provider, { entry.metadata with enabled := false, updatedAt := now }⟩ ∧
      resolveApiProvider (registryDisable reg api now).2 api =
        .error ("No API provider registered for api: " ++ api) ∧
      entry.provider ∈ registryList (registryDisable reg api now).2 true ∧
      registryList (registryDisable reg api now).2 false =
        registryList (reg.filter (fun p => p.1 != api)) false ∧
      registryGet (registryEnable (registryDisable reg api now).2 api now2).2 api =
        some entry.provider := by
  intro P reg api entry now now2 hnd hlk
  have hD : registryDisable reg api now =
      (true, regUpdate reg api (fun md => { md with enabled := false, updatedAt := now })) := by
    unfold registryDisable
    rw [hlk]
  rw [hD]
  have hlkD : regLookup
      (regUpdate reg api (fun md => { md with enabled := false, updatedAt := now })) api =
        some ⟨entry.provider, { entry.metadata with enabled := false, updatedAt := now }⟩ := by
    rw [regLookup_regUpdate_eq, hlk]
    rfl
  refine ⟨rfl, ?_, ?_, ?_, ?_, ?_, ?_⟩
  · unfold registryGet
    rw [hlkD]
    rfl
  · unfold registryGetWithMetadata
    exact hlkD
  · unfold resolveApiProvider
    unfold registryGet
    rw [hlkD]
    rfl
  · rw [registryList_true_eq_map]
    exact regLookup_provider_mem _ api
      ⟨entry.provider, { entry.metadata with enabled := false, updatedAt := now }⟩ hlkD
  · exact registryList_regUpdate_disable now reg api hnd
  · have hE : registryEnable
        (regUpdate reg api (fun md => { md with enabled := false, updatedAt := now })) api now2 =
        (true, regUpdate
          (regUpdate reg api (fun md => { md with enabled := false, updatedAt := now })) api
          (fun md => { md with enabled := true, updatedAt := now2 })) := by
      unfold registryEnable
      rw [hlkD]
    rw [hE]
    unfold registryGet
    rw [regLookup_regUpdate_eq, hlkD]
    rfl

/-- Concrete metadata of the witness registry. -/
def c10Metadata : ApiProviderMetadata := ⟨some "builtin", some "1.0", true, 1, 1⟩
/-- Concrete entry of the witness registry. -/
def c10Entry : RegisteredApiProvider String := ⟨"kimiStream", c10Metadata⟩
/-- The witness registry with one registered provider. -/
def c10Registry : Registry String := [("kimi-openai-compatible", c10Entry)]

/-- Witness for C10 on a concrete one-entry registry. -/
theorem registry_disable_enable_roundtrip_witness :
    registryGet (registryDisable c10Registry "kimi-openai-compatible" 5).2
        "kimi-openai-compatible" = none ∧
    registryGet (registryEnable (registryDisable c10Registry "kimi-openai-compatible" 5).2
        "kimi-openai-compatible" 9).2 "kimi-openai-compatible" = some "kimiStream" :=
  ⟨(registry_disable_enable_roundtrip String c10Registry "kimi-openai-compatible" c10Entry 5 9
      (by decide) rfl).2.1,
    (registry_disable_enable_roundtrip String c10Registry "kimi-openai-compatible" c10Entry 5 9
      (by decide) rfl).2.2.2.2.2.2⟩
